import Mathlib

/-!
# Verification of the Kiro account-management front end

Shallow embedding of the account-cache, stats, REST-client and polling logic
of the Cli-Proxy-API management center (TypeScript sources under `src/`).
JavaScript numbers are modelled as rationals, JSON values as an inductive
type, browser `localStorage` as a partial map from keys to stored JSON
values, and every HTTP endpoint as an oracle function supplied as an
explicit parameter.
-/

/-! ## JavaScript string primitives

Structural re-implementations of the JS string methods used by the sources
(`startsWith`, `includes`, `toLowerCase`, `trim`, `split`, `join`,
`replace` with a string pattern), written on `List Char` so that they
compute by kernel reduction. -/

/-- JS `s.startsWith(pat)`. -/
def strStartsWith (s pat : String) : Bool :=
  pat.data.isPrefixOf s.data

/-- Substring occurrence test on lists (helper for JS `includes`). -/
def listSub [DecidableEq α] (pat : List α) : List α → Bool
  | [] => pat.isEmpty
  | a :: rest => pat.isPrefixOf (a :: rest) || listSub pat rest

/-- JS `s.includes(pat)`. -/
def strIncludes (s pat : String) : Bool :=
  listSub pat.data s.data

/-- ASCII lower-casing of one character (what JS `toLowerCase` does on the
ASCII file names and plan labels appearing here). -/
def charLower (c : Char) : Char :=
  if 'A' ≤ c ∧ c ≤ 'Z' then Char.ofNat (c.toNat + 32) else c

/-- JS `s.toLowerCase()`. -/
def jsToLower (s : String) : String :=
  ⟨s.data.map charLower⟩

/-- JS `s.trim()`. -/
def jsTrim (s : String) : String :=
  ⟨((s.data.dropWhile Char.isWhitespace).reverse.dropWhile Char.isWhitespace).reverse⟩

/-- JS `s.split(sep)` for a one-character separator. -/
def splitChar (sep : Char) : List Char → List (List Char)
  | [] => [[]]
  | c :: rest =>
    match splitChar sep rest with
    | [] => [[]]
    | g :: gs => if c = sep then [] :: g :: gs else (c :: g) :: gs

/-- JS `s.split('-')` as strings. -/
def strSplitDash (s : String) : List String :=
  (splitChar '-' s.data).map (fun l => ⟨l⟩)

/-- JS `parts.join('-')`. -/
def strJoinDash (parts : List String) : String :=
  ⟨(List.intersperse "-" parts).foldr (fun a r => a.data ++ r) []⟩

/-- Helper for JS `s.replace(pat, repl)`: replace the first occurrence of
`pat` (a plain string, not a regex) in a character list. -/
def replaceFirstAux (pat repl : List Char) : List Char → List Char
  | [] => []
  | c :: rest =>
    if pat.isPrefixOf (c :: rest) then repl ++ (c :: rest).drop pat.length
    else c :: replaceFirstAux pat repl rest

/-- JS `s.replace(pat, repl)` with a string pattern: replaces only the
first occurrence, or returns `s` unchanged when `pat` does not occur. -/
def jsReplaceFirst (s pat repl : String) : String :=
  ⟨replaceFirstAux pat.data repl.data s.data⟩

/-- JS `x || d` on an optional string (`undefined` and `''` are falsy). -/
def jsOrStr (x : Option String) (d : String) : String :=
  match x with
  | none => d
  | some s => if s = "" then d else s

/-- JS `q || d` on a number (`0` is falsy; `NaN` is not representable
in the rational model). -/
def jsOrNum (q d : ℚ) : ℚ :=
  if q = 0 then d else q

/-- JS `Math.round`: round half toward positive infinity. -/
def jsRound (q : ℚ) : ℤ :=
  ⌊q + 1/2⌋

/-- JS `Number(x.toFixed(1))`: round to one decimal digit. -/
def jsToFixed1 (q : ℚ) : ℚ :=
  (jsRound (q * 10) : ℚ) / 10

/-! ## JSON values

The model of the data exchanged with `JSON.parse` / `JSON.stringify` and
stored in `localStorage`. -/

/-- A JSON value. Numbers are rationals, objects are key/value lists in
insertion order. -/
inductive Json where
  | null : Json
  | bool : Bool → Json
  | num : ℚ → Json
  | str : String → Json
  | arr : List Json → Json
  | obj : List (String × Json) → Json
deriving Inhabited

/-- A JS value as seen by property access: a JSON value or `undefined`. -/
inductive JVal where
  | undefined : JVal
  | val : Json → JVal
deriving Inhabited

/-- First binding of key `k` in a JSON object body. -/
def jlookup (k : String) : List (String × Json) → Option Json
  | [] => none
  | (k', v) :: t => if k' = k then some v else jlookup k t

/-- JS truthiness of a value (`undefined`, `null`, `false`, `0` and `''`
are falsy; objects and arrays are truthy). -/
def jTruthy : JVal → Bool
  | .undefined => false
  | .val .null => false
  | .val (.bool b) => b
  | .val (.num q) => decide (q ≠ 0)
  | .val (.str s) => decide (s ≠ "")
  | .val (.arr _) => true
  | .val (.obj _) => true

/-! ## Account data model (`src/types`, `part_002`)

The `KiroAccountItem` record and its nested usage structures. Optional
TS fields become `Option`. -/

structure KiroFreeTrialInfo where
  currentUsage : ℚ
  usageLimit : ℚ
deriving DecidableEq

structure KiroBonus where
  displayName : String
  currentUsage : ℚ
  usageLimit : ℚ
deriving DecidableEq

structure KiroUsageBreakdown where
  currentUsage : Option ℚ
  usageLimit : Option ℚ
  nextDateReset : Option ℚ
  overageRate : Option ℚ
  freeTrialInfo : Option KiroFreeTrialInfo
  bonuses : Option (List KiroBonus)
deriving DecidableEq

structure KiroSubscriptionInfo where
  type : String
  subscriptionTitle : String
  overageCapability : Option String
  upgradeCapability : Option String
deriving DecidableEq

structure KiroUserInfo where
  email : Option String
  userId : Option String
deriving DecidableEq

structure KiroOverageConfiguration where
  overageStatus : String
deriving DecidableEq

structure KiroUsageData where
  usageBreakdownList : Option (List KiroUsageBreakdown)
  usageBreakdown : Option KiroUsageBreakdown
  subscriptionInfo : Option KiroSubscriptionInfo
  userInfo : Option KiroUserInfo
  overageConfiguration : Option KiroOverageConfiguration
  daysUntilReset : Option ℚ
  nextDateReset : Option ℚ
deriving DecidableEq

structure KiroAccountItem where
  id : String
  email : String
  label : Option String
  provider : String
  authMethod : String
  status : String
  accessToken : Option String
  refreshToken : Option String
  profileArn : Option String
  expiresAt : Option String
  clientId : Option String
  clientSecret : Option String
  clientIdHash : Option String
  region : Option String
  startUrl : Option String
  usageData : Option KiroUsageData
  createdAt : Option String
  updatedAt : Option String
  lastRefreshedAt : Option String
  fileName : Option String
  filePath : Option String
deriving DecidableEq

structure KiroAccountStats where
  total : ℕ
  active : ℕ
  banned : ℕ
  expired : ℕ
  proPlus : ℕ
  pro : ℕ
  free : ℕ
  totalQuota : ℤ
  totalUsed : ℤ
  usagePercent : ℚ
  remaining : ℤ
deriving DecidableEq

/-! ## `src/utils/kiro/stats.ts` -/

def KIRO_STATUS_ACTIVE : List String := ["active", "正常", "有效"]

/-- `getBreakdown`: `usageData.usageBreakdownList?.[0] || usageData.usageBreakdown || null`. -/
def getBreakdown (account : KiroAccountItem) : Option KiroUsageBreakdown :=
  match account.usageData with
  | none => none
  | some usageData =>
    match usageData.usageBreakdownList.bind List.head? with
    | some b => some b
    | none => usageData.usageBreakdown

/-- `getQuota`: total usage limit of the first breakdown, `-1` without one. -/
def getQuota (account : KiroAccountItem) : ℚ :=
  match getBreakdown account with
  | none => -1
  | some breakdown =>
    let main := breakdown.usageLimit.getD 0
    let freeTrial := (breakdown.freeTrialInfo.map (fun f => f.usageLimit)).getD 0
    let bonus := ((breakdown.bonuses.map
      (fun bs => bs.foldl (fun sum b => sum + jsOrNum b.usageLimit 0) 0)).getD 0)
    main + freeTrial + bonus

/-- `getUsed`: total current usage of the first breakdown, `-1` without one. -/
def getUsed (account : KiroAccountItem) : ℚ :=
  match getBreakdown account with
  | none => -1
  | some breakdown =>
    let main := breakdown.currentUsage.getD 0
    let freeTrial := (breakdown.freeTrialInfo.map (fun f => f.currentUsage)).getD 0
    let bonus := ((breakdown.bonuses.map
      (fun bs => bs.foldl (fun sum b => sum + jsOrNum b.currentUsage 0) 0)).getD 0)
    main + freeTrial + bonus

/-- `getSubType`: `account.usageData?.subscriptionInfo?.type ?? ''`. -/
def getSubType (account : KiroAccountItem) : String :=
  ((account.usageData.bind (fun u => u.subscriptionInfo)).map
    (fun s => s.type)).getD ""

/-- `getSubPlan`: `account.usageData?.subscriptionInfo?.subscriptionTitle ?? ''`. -/
def getSubPlan (account : KiroAccountItem) : String :=
  ((account.usageData.bind (fun u => u.subscriptionInfo)).map
    (fun s => s.subscriptionTitle)).getD ""

/-- `getUsagePercent`: `quota === 0 ? 0 : Math.min(100, (used / quota) * 100)`. -/
def getUsagePercent (used quota : ℚ) : ℚ :=
  if quota = 0 then 0 else min 100 (used / quota * 100)

/-- `isProPlus`. -/
def isProPlus (account : KiroAccountItem) : Bool :=
  let subType := getSubType account
  let subPlan := getSubPlan account
  strIncludes subType "PRO_PLUS" || strIncludes subType "PRO+" ||
    strIncludes subPlan "PRO+" || strIncludes (jsToLower subPlan) "pro plus"

/-- `isPro`: returns `false` outright when `isProPlus` holds. -/
def isPro (account : KiroAccountItem) : Bool :=
  if isProPlus account then false
  else
    let subType := getSubType account
    let subPlan := getSubPlan account
    strIncludes subType "PRO" || strIncludes subPlan "PRO"

/-- `isFree`. -/
def isFree (account : KiroAccountItem) : Bool :=
  let subType := getSubType account
  let subPlan := getSubPlan account
  if subType = "" ∧ subPlan = "" then true
  else strIncludes subType "FREE" || strIncludes (jsToLower subPlan) "free"

/-- `isAccountActive`: membership in `KIRO_STATUS_ACTIVE`. -/
def isAccountActive (account : KiroAccountItem) : Bool :=
  KIRO_STATUS_ACTIVE.contains account.status

def isAccountExpired (account : KiroAccountItem) : Bool :=
  account.status = "expired"

def isAccountBanned (account : KiroAccountItem) : Bool :=
  account.status = "banned"

/-- `calcAccountStats`. -/
def calcAccountStats (accounts : List KiroAccountItem) : KiroAccountStats :=
  let total := accounts.length
  let active := (accounts.filter isAccountActive).length
  let banned := (accounts.filter isAccountBanned).length
  let expired := (accounts.filter isAccountExpired).length
  let proPlus := (accounts.filter isProPlus).length
  let pro := (accounts.filter isPro).length
  let free := (accounts.filter isFree).length
  let accountsWithUsage := accounts.filter (fun a => decide (0 ≤ getQuota a))
  let totalQuota := jsRound (accountsWithUsage.foldl (fun sum a => sum + getQuota a) 0)
  let totalUsed := jsRound (accountsWithUsage.foldl
    (fun sum a =>
      let used := getUsed a
      sum + (if 0 ≤ used then used else 0)) 0)
  let usagePercent :=
    if 0 < totalQuota then jsToFixed1 ((totalUsed : ℚ) / (totalQuota : ℚ) * 100) else 0
  let remaining := totalQuota - totalUsed
  { total := total, active := active, banned := banned, expired := expired,
    proPlus := proPlus, pro := pro, free := free,
    totalQuota := totalQuota, totalUsed := totalUsed,
    usagePercent := usagePercent, remaining := remaining }

/-! ## `src/services/api/kiro.ts` -/

/-- JS `a || b` on two optional strings, as used for the
`camelCase || snake_case` content-field fallbacks. -/
def pickStr (a b : Option String) : Option String :=
  match a with
  | none => b
  | some s => if s = "" then b else some s

/-- Truthiness of an optional string. -/
def strTruthy (o : Option String) : Bool :=
  match o with
  | none => false
  | some s => s ≠ ""

/-- The `metadata` sub-object of a stored auth file, with the fields the
client reads. -/
structure AuthFileMetadata where
  email : Option String
  label : Option String
  profileArn : Option String
  region : Option String
  startUrl : Option String
  createdAt : Option String
  updatedAt : Option String

/-- The JSON content of a stored auth file, with the fields
`parseKiroAuthFile` reads (both camelCase and snake_case variants). -/
structure AuthFileContent where
  email : Option String
  label : Option String
  metadata : Option AuthFileMetadata
  accessToken : Option String
  access_token : Option String
  refreshToken : Option String
  refresh_token : Option String
  profileArn : Option String
  expiresAt : Option String
  expires_at : Option String
  clientId : Option String
  client_id : Option String
  clientSecret : Option String
  client_secret : Option String
  clientIdHash : Option String
  region : Option String
  startUrl : Option String
  createdAt : Option String
  updatedAt : Option String
  lastRefreshedAt : Option String
  last_refresh : Option String
  filePath : Option String
  usageData : Option KiroUsageData
  usage : Option KiroUsageData

/-- The all-`undefined` content used for `content || {}`. -/
def emptyAuthFileContent : AuthFileContent :=
  { email := none, label := none, metadata := none, accessToken := none,
    access_token := none, refreshToken := none, refresh_token := none,
    profileArn := none, expiresAt := none, expires_at := none,
    clientId := none, client_id := none, clientSecret := none,
    client_secret := none, clientIdHash := none, region := none,
    startUrl := none, createdAt := none, updatedAt := none,
    lastRefreshedAt := none, last_refresh := none, filePath := none,
    usageData := none, usage := none }

def KIRO_FILE_PREFIXES : List String := ["kiro-", "amazonq-"]

/-- `extractIdFromFileName`. -/
def extractIdFromFileName (fileName : String) : String :=
  let baseName := jsReplaceFirst fileName ".json" ""
  let parts := strSplitDash baseName
  if 3 ≤ parts.length then strJoinDash (parts.drop 2) else baseName

/-- `isKiroAuthFile`: the lower-cased name starts with one of the Kiro
file name markers. -/
def isKiroAuthFile (fileName : String) : Bool :=
  KIRO_FILE_PREFIXES.any (fun p => strStartsWith (jsToLower fileName) p)

/-- `parseKiroAuthFile` (modulo its unreachable `catch` branch: the pure
model cannot throw, so the result is always `some`). The date comparison
`new Date(expiresAtStr) > new Date()` is the oracle `isFutureDate`. -/
def parseKiroAuthFile (fileName : String) (content : AuthFileContent)
    (isFutureDate : String → Bool) : Option KiroAccountItem :=
  let pa : String × String :=
    if strStartsWith fileName "kiro-aws-" || strStartsWith fileName "amazonq-" then
      ("BuilderId", "builder-id")
    else if strStartsWith fileName "kiro-google-" then ("Google", "social")
    else if strStartsWith fileName "kiro-github-" then ("Github", "social")
    else if strIncludes fileName "idc" || strTruthy content.startUrl then
      ("Enterprise", "idc")
    else ("Unknown", "social")
  let accessToken := pickStr content.accessToken content.access_token
  let expiresAtStr := pickStr content.expiresAt content.expires_at
  let status :=
    if strTruthy accessToken then
      if strTruthy expiresAtStr then
        if isFutureDate (expiresAtStr.getD "") then "active" else "expired"
      else "active"
    else "unknown"
  let usageData : Option KiroUsageData :=
    match content.usageData with
    | some u => some u
    | none => content.usage
  some
    { id := jsReplaceFirst fileName ".json" "",
      email := jsOrStr (pickStr content.email (content.metadata.bind (fun m => m.email)))
        (extractIdFromFileName fileName),
      label := pickStr content.label (content.metadata.bind (fun m => m.label)),
      provider := pa.1,
      authMethod := pa.2,
      status := status,
      accessToken := pickStr content.accessToken content.access_token,
      refreshToken := pickStr content.refreshToken content.refresh_token,
      profileArn := pickStr content.profileArn (content.metadata.bind (fun m => m.profileArn)),
      expiresAt := pickStr content.expiresAt content.expires_at,
      clientId := pickStr content.clientId content.client_id,
      clientSecret := pickStr content.clientSecret content.client_secret,
      clientIdHash := content.clientIdHash,
      region := pickStr content.region (content.metadata.bind (fun m => m.region)),
      startUrl := pickStr content.startUrl (content.metadata.bind (fun m => m.startUrl)),
      usageData := usageData,
      createdAt := pickStr content.createdAt (content.metadata.bind (fun m => m.createdAt)),
      updatedAt := pickStr content.updatedAt (content.metadata.bind (fun m => m.updatedAt)),
      lastRefreshedAt := pickStr content.lastRefreshedAt content.last_refresh,
      fileName := some fileName,
      filePath := content.filePath }

/-- A file entry of the `/auth-files` listing. -/
structure AuthFile where
  name : String
  email : Option String
  label : Option String
  status : Option String

structure AuthFilesResponse where
  files : Option (List AuthFile)

/-- The account record built by the `getAccounts` loop body for one
listed file. -/
def mkListedAccount (file : AuthFile) : KiroAccountItem :=
  let lowerName := jsToLower file.name
  let pa : String × String :=
    if strStartsWith lowerName "kiro-builderid-" || strStartsWith lowerName "amazonq-" then
      ("BuilderId", "builder-id")
    else if strStartsWith lowerName "kiro-google-" then ("Google", "social")
    else if strStartsWith lowerName "kiro-github-" then ("Github", "social")
    else if strIncludes lowerName "idc" then ("Enterprise", "idc")
    else ("Unknown", "social")
  { id := jsReplaceFirst file.name ".json" "",
    email := jsOrStr file.email (extractIdFromFileName file.name),
    label := file.label,
    provider := pa.1,
    authMethod := pa.2,
    status := jsOrStr file.status "unknown",
    accessToken := none, refreshToken := none, profileArn := none,
    expiresAt := none, clientId := none, clientSecret := none,
    clientIdHash := none, region := none, startUrl := none,
    usageData := none, createdAt := none, updatedAt := none,
    lastRefreshedAt := none, fileName := some file.name, filePath := none }

/-- `getAccounts`: keep exactly the Kiro auth files, in listing order.
The `/auth-files` response is the parameter (`response?.files || []`). -/
def getAccounts (response : Option AuthFilesResponse) : List KiroAccountItem :=
  let files := (response.bind (fun r => r.files)).getD []
  files.filterMap (fun file =>
    if isKiroAuthFile file.name then some (mkListedAccount file) else none)

/-- The `id.endsWith('.json') ? id : id + '.json'` normalization shared by
the per-account endpoints. -/
def toFileName (id : String) : String :=
  if (".json".data).isSuffixOf id.data then id else id ++ ".json"

structure DeleteAccountsResult where
  success : Bool
  deleted : List String
  errors : List String
  /-- Instrumentation: file names passed to the DELETE endpoint, in call
  order (not part of the TS return value). -/
  calls : List String

/-- `deleteAccounts`: sequential per-id deletes; `del` is the backend
outcome oracle (`false` = the DELETE request throws). -/
def deleteAccounts (del : String → Bool) : List String → DeleteAccountsResult
  | [] => { success := true, deleted := [], errors := [], calls := [] }
  | id :: rest =>
    let ok := del (toFileName id)
    let r := deleteAccounts del rest
    let deleted := if ok then id :: r.deleted else r.deleted
    let errors := if ok then r.errors else id :: r.errors
    { success := errors.isEmpty, deleted := deleted, errors := errors,
      calls := toFileName id :: r.calls }

structure KiroRefreshResponse where
  success : Bool
  account : Option KiroAccountItem
  error : Option String

/-- `refreshAccount`: re-read the auth file; `get` is the
`GET /auth-files?name=` oracle (`Except.error` = the request throws,
`Except.ok none` = a null response, guarded by `content || {}`). -/
def refreshAccount (get : String → Except String (Option AuthFileContent))
    (isFutureDate : String → Bool) (id : String) : KiroRefreshResponse :=
  let fileName := toFileName id
  match get fileName with
  | .error e => { success := false, account := none, error := some e }
  | .ok content =>
    let account := parseKiroAuthFile fileName (content.getD emptyAuthFileContent) isFutureDate
    { success := true, account := account, error := none }

structure RefreshAllResult where
  success : ℕ
  failed : ℕ
  accounts : List KiroAccountItem

/-- The sequential per-account loop of `refreshAllAccounts`. -/
def refreshAllGo (get : String → Except String (Option AuthFileContent))
    (isFutureDate : String → Bool) : List KiroAccountItem → RefreshAllResult
  | [] => { success := 0, failed := 0, accounts := [] }
  | account :: rest =>
    let result := refreshAccount get isFutureDate account.id
    let r := refreshAllGo get isFutureDate rest
    match result.success, result.account with
    | true, some acc =>
      { success := r.success + 1, failed := r.failed, accounts := acc :: r.accounts }
    | _, _ =>
      { success := r.success, failed := r.failed + 1, accounts := account :: r.accounts }

/-- `refreshAllAccounts`: list the accounts, then refresh each in order. -/
def refreshAllAccounts (response : Option AuthFilesResponse)
    (get : String → Except String (Option AuthFileContent))
    (isFutureDate : String → Bool) : RefreshAllResult :=
  refreshAllGo get isFutureDate (getAccounts response)

/-! ## `src/pages/KiroPage.tsx`: batched usage refresh -/

/-- The `/kiro-usage` response shape. -/
structure KiroUsageResp where
  status : String
  subscription_title : Option String
  current_usage : Option ℚ
  usage_limit : Option ℚ
  next_reset : Option String
  error : Option String

def BATCH_SIZE : ℕ := 10

/-- The truthiness guard `if (!account.fileName) return` of the batch
worker: the file name that is actually used, if any. -/
def truthyFileName (account : KiroAccountItem) : Option String :=
  match account.fileName with
  | none => none
  | some fn => if fn = "" then none else some fn

/-- One batch worker of `fetchUsageForAccounts`: how the entry of a single
account is rewritten by its `/kiro-usage` response (`u fn = none` means the
request threw and the `catch` block leaves the entry unchanged). -/
def applyUsage (u : String → Option KiroUsageResp) (account : KiroAccountItem) :
    KiroAccountItem :=
  match truthyFileName account with
  | none => account
  | some fn =>
    match u fn with
    | none => account
    | some usage =>
      if usage.status = "ok" then
        { account with
          status := "active",
          usageData := some
            { usageBreakdownList := some
                [{ currentUsage := some (usage.current_usage.getD 0),
                   usageLimit := some (usage.usage_limit.getD 0),
                   nextDateReset := none, overageRate := none,
                   freeTrialInfo := none, bonuses := none }],
              usageBreakdown := none,
              subscriptionInfo := some
                { type := "subscription",
                  subscriptionTitle := usage.subscription_title.getD "Free",
                  overageCapability := none, upgradeCapability := none },
              userInfo := none, overageConfiguration := none,
              daysUntilReset := none, nextDateReset := none } }
      else if usage.status = "banned" then { account with status := "banned" }
      else if usage.status = "expired" ||
          (usage.error.map (fun e => strIncludes e "expired")).getD false then
        { account with status := "expired" }
      else account

/-- The `/kiro-usage` requests issued for one batch (accounts without a
truthy `fileName` are skipped). -/
def batchCalls (batch : List KiroAccountItem) : List String :=
  batch.filterMap truthyFileName

/-- Observable behaviour of `fetchUsageForAccounts`: the request batches in
issue order, the successive `updateCache` arguments, and the final contents
of the `results` array. -/
structure FetchUsageTrace where
  callBatches : List (List String)
  cacheWrites : List (List KiroAccountItem)
  final : List KiroAccountItem

/-- The batch loop of `fetchUsageForAccounts`: `done` is the already
processed prefix of the `results` array, the argument list is the pending
suffix. Within a batch each worker rewrites a distinct index of `results`,
so a batch amounts to mapping `applyUsage` over its slice. -/
def fetchUsageGo (u : String → Option KiroUsageResp) (done : List KiroAccountItem) :
    List KiroAccountItem → FetchUsageTrace
  | [] => { callBatches := [], cacheWrites := [], final := done }
  | a :: rest =>
    let batch := (a :: rest).take BATCH_SIZE
    let done2 := done ++ batch.map (applyUsage u)
    let r := fetchUsageGo u done2 ((a :: rest).drop BATCH_SIZE)
    { callBatches := batchCalls batch :: r.callBatches,
      cacheWrites := (done2 ++ (a :: rest).drop BATCH_SIZE) :: r.cacheWrites,
      final := r.final }
termination_by l => l.length
decreasing_by simp [BATCH_SIZE]; omega

/-- `fetchUsageForAccounts` with the usage endpoint as oracle `u`. -/
def fetchUsageForAccounts (u : String → Option KiroUsageResp)
    (accountList : List KiroAccountItem) : FetchUsageTrace :=
  fetchUsageGo u [] accountList

/-- Specification-side slicing: the consecutive `slice(i, i + BATCH_SIZE)`
windows of the loop. -/
def chunksOf10 : List α → List (List α)
  | [] => []
  | a :: rest => (a :: rest).take BATCH_SIZE :: chunksOf10 ((a :: rest).drop BATCH_SIZE)
termination_by l => l.length
decreasing_by simp [BATCH_SIZE]; omega

/-! ## `src/components/kiro/KiroImportModal.tsx`: `parseJson` -/

/-- JS property access `account[k]` on a parsed JSON value: throws
(`TypeError`) on `null`, yields `undefined` on objects without the key and
on non-object primitives. -/
def jsGetField (account : Json) (k : String) : Except Unit JVal :=
  match account with
  | .null => .error ()
  | .obj l =>
    match jlookup k l with
    | some v => .ok (.val v)
    | none => .ok .undefined
  | _ => .ok .undefined

/-- An entry of the `invalid` list of a parse result. -/
structure InvalidEntry where
  index : ℤ
  reason : String
  email : Option JVal
deriving Inhabited

/-- The modal's `ParseResult`. -/
structure ParseResult where
  valid : List Json
  invalid : List InvalidEntry

/-- The `forEach` body of `parseJson` for one entry: `.inl` = pushed to
`valid`, `.inr` = pushed to `invalid`; `.error` = a thrown `TypeError`
(property access on `null`, or `.startsWith` on a truthy non-string
`refreshToken`), which aborts the whole classification. -/
def classifyEntry (account : Json) (index : ℕ) : Except Unit (Json ⊕ InvalidEntry) :=
  match jsGetField account "email" with
  | .error e => .error e
  | .ok emailRaw =>
    let email : JVal :=
      if jTruthy emailRaw then emailRaw else .val (.str ("#" ++ toString (index + 1)))
    match jsGetField account "refreshToken" with
    | .error e => .error e
    | .ok rt =>
      if ¬ jTruthy rt then
        .ok (.inr { index := index, reason := "Missing refreshToken", email := some email })
      else
        match rt with
        | .val (.str s) =>
          if strStartsWith s "aor" then .ok (.inl account)
          else .ok (.inr { index := index, reason := "Invalid refreshToken",
                           email := some email })
        | _ => .error ()

/-- The `forEach` loop, accumulating `valid` and `invalid` in entry order. -/
def classifyList (index : ℕ) : List Json → Except Unit ParseResult
  | [] => .ok { valid := [], invalid := [] }
  | account :: rest =>
    match classifyEntry account index with
    | .error e => .error e
    | .ok c =>
      match classifyList (index + 1) rest with
      | .error e => .error e
      | .ok r =>
        match c with
        | .inl v => .ok { valid := v :: r.valid, invalid := r.invalid }
        | .inr e => .ok { valid := r.valid, invalid := e :: r.invalid }

/-- `Array.isArray(data) ? data : [data]`. -/
def jsToArray (data : Json) : List Json :=
  match data with
  | .arr l => l
  | j => [j]

/-- The result returned from the `catch` branch. -/
def invalidJsonResult : ParseResult :=
  { valid := [], invalid := [{ index := -1, reason := "Invalid JSON format", email := none }] }

/-- `parseJson` of the import modal; `parse` is the platform `JSON.parse`
oracle (`none` = it throws a `SyntaxError`). Blank text short-circuits to
`none` before any parsing. -/
def parseJson (text : String) (parse : String → Option Json) : Option ParseResult :=
  if jsTrim text = "" then none
  else
    match parse text with
    | none => some invalidJsonResult
    | some data =>
      match classifyList 0 (jsToArray data) with
      | .ok r => some r
      | .error _ => some invalidJsonResult

/-! ## `src/pages/OAuthPage.tsx`: interval timers for OAuth polling

A transition system over the component's timer state: `timers.current`
(the `reg` association list), the set of installed and not-yet-cleared
interval timers (`live`, each recording the provider key, period and
handler flavour it was created with), a fresh-handle counter standing for
the browser's interval handles, and the in-flight poll requests
(`pending`). A tick is split into two events, as in the browser event
loop: the interval fires (only a live timer fires), starting the async
handler's status request; the request completes later — possibly after
the timer has been cleared by a new `startPolling`, in which case the
stale continuation still runs
`window.clearInterval(timer); delete timers.current[key]`. -/

def POLL_INTERVAL_MS : ℕ := 3000

/-- Which polling function installed a timer (the two tick handlers treat
responses differently). -/
inductive HandlerKind where
  | generic : HandlerKind
  | kiro : HandlerKind
deriving DecidableEq

structure TimerEntry where
  key : String
  id : ℕ
  periodMs : ℕ
  kind : HandlerKind
deriving DecidableEq

/-- An in-flight `getAuthStatus` request: the provider key and timer
handle captured by the tick handler's closure. -/
structure PendingTick where
  key : String
  id : ℕ
  kind : HandlerKind
deriving DecidableEq

structure TimerWorld where
  nextId : ℕ
  live : List TimerEntry
  reg : List (String × ℕ)
  pending : List PendingTick

def regGet (k : String) : List (String × ℕ) → Option ℕ
  | [] => none
  | (k', v) :: t => if k' = k then some v else regGet k t

def regSet (k : String) (v : ℕ) : List (String × ℕ) → List (String × ℕ)
  | [] => [(k, v)]
  | (k', v') :: t => if k' = k then (k, v) :: t else (k', v') :: regSet k v t

/-- `delete timers.current[key]`. -/
def regDel (k : String) : List (String × ℕ) → List (String × ℕ)
  | [] => []
  | (k', v) :: t => if k' = k then regDel k t else (k', v) :: regDel k t

/-- `window.clearInterval(t)`: the timer with handle `t` never fires
again (already-started handler continuations are unaffected). -/
def clearIntervalW (t : ℕ) (live : List TimerEntry) : List TimerEntry :=
  live.filter (fun e => e.id ≠ t)

/-- The shared body of `startPolling` and `startKiroPolling`: clear the
timer registered under the provider key, if any, then install a fresh
3000 ms interval timer and register it under the key. -/
def installTimer (p : String) (kind : HandlerKind) (w : TimerWorld) : TimerWorld :=
  let live1 :=
    match regGet p w.reg with
    | some t => clearIntervalW t w.live
    | none => w.live
  { nextId := w.nextId + 1,
    live := live1 ++
      [{ key := p, id := w.nextId, periodMs := POLL_INTERVAL_MS, kind := kind }],
    reg := regSet p w.nextId w.reg,
    pending := w.pending }

/-- `clearInterval(timer); delete timers.current[key]` run by a
completing tick handler (with the handler's captured key and handle). -/
def tickClear (p : String) (t : ℕ) (w : TimerWorld) : TimerWorld :=
  { w with live := clearIntervalW t w.live, reg := regDel p w.reg }

/-- The in-flight request of `pt` resolves (its continuation runs now). -/
def removePending (pt : PendingTick) (w : TimerWorld) : TimerWorld :=
  { w with pending := w.pending.erase pt }

/-- The component unmount cleanup:
`Object.values(timers.current).forEach(clearInterval)`. -/
def unmountWorld (w : TimerWorld) : TimerWorld :=
  { w with live := w.live.filter (fun e => !(w.reg.map (fun kv => kv.2)).contains e.id) }

/-- A `/get-auth-status` response as seen by the generic `startPolling`
tick handler. -/
structure OAuthStatusResp where
  status : String
  error : Option String

/-- What one generic poll completion observes: a response, or a thrown
request. -/
inductive PollOutcome where
  | res : OAuthStatusResp → PollOutcome
  | threw : PollOutcome

/-- The generic `startPolling` tick clears its timer exactly on status
`'ok'`, on status `'error'`, and on a thrown request. -/
def pollTickClears : PollOutcome → Bool
  | .res r => r.status = "ok" || r.status = "error"
  | .threw => true

/-- A `/get-auth-status` response as seen by the `startKiroPolling` tick
handler. -/
structure KiroStatusResp where
  status : String
  error : Option String
  verification_url : Option String
  user_code : Option String
  url : Option String

inductive KiroPollOutcome where
  | res : KiroStatusResp → KiroPollOutcome
  | threw : KiroPollOutcome

/-- The Kiro tick clears its timer on `'ok'`, on an `'error'` whose error
string does not carry an `'auth_url|'` payload, and on a thrown request;
`'device_code'`, `'auth_url'` and all other statuses keep polling. -/
def kiroTickClears : KiroPollOutcome → Bool
  | .res r =>
    r.status = "ok" ||
      (r.status = "error" && !strStartsWith (jsOrStr r.error "") "auth_url|")
  | .threw => true

/-- One event of the timer system, as the program behaves: a completion
may arrive at any time after its fire — also after its timer has been
cleared (a stale completion), whose continuation still clears and
unregisters. -/
inductive TimerStep : TimerWorld → TimerWorld → Prop
  | startPolling (p : String) (w : TimerWorld) :
      TimerStep w (installTimer p .generic w)
  | startKiroPolling (w : TimerWorld) :
      TimerStep w (installTimer "kiro" .kiro w)
  | tickFire (e : TimerEntry) (w : TimerWorld) (hmem : e ∈ w.live) :
      TimerStep w
        { w with pending := w.pending ++ [{ key := e.key, id := e.id, kind := e.kind }] }
  | pollTickComplete (pt : PendingTick) (o : PollOutcome) (w : TimerWorld)
      (hpend : pt ∈ w.pending) (hkind : pt.kind = .generic) :
      TimerStep w
        (if pollTickClears o then tickClear pt.key pt.id (removePending pt w)
         else removePending pt w)
  | kiroPollTickComplete (pt : PendingTick) (o : KiroPollOutcome) (w : TimerWorld)
      (hpend : pt ∈ w.pending) (hkind : pt.kind = .kiro) :
      TimerStep w
        (if kiroTickClears o then tickClear pt.key pt.id (removePending pt w)
         else removePending pt w)
  | unmount (w : TimerWorld) : TimerStep w (unmountWorld w)

/-- The stale-free restriction of `TimerStep`: identical, except that a
poll completion may only arrive while its own timer is still live (no
in-flight continuation survives a `clearInterval` of its timer). -/
inductive SafeTimerStep : TimerWorld → TimerWorld → Prop
  | startPolling (p : String) (w : TimerWorld) :
      SafeTimerStep w (installTimer p .generic w)
  | startKiroPolling (w : TimerWorld) :
      SafeTimerStep w (installTimer "kiro" .kiro w)
  | tickFire (e : TimerEntry) (w : TimerWorld) (hmem : e ∈ w.live) :
      SafeTimerStep w
        { w with pending := w.pending ++ [{ key := e.key, id := e.id, kind := e.kind }] }
  | pollTickComplete (pt : PendingTick) (o : PollOutcome) (w : TimerWorld)
      (hpend : pt ∈ w.pending) (hkind : pt.kind = .generic)
      (hlive : ∃ e ∈ w.live, e.id = pt.id ∧ e.key = pt.key) :
      SafeTimerStep w
        (if pollTickClears o then tickClear pt.key pt.id (removePending pt w)
         else removePending pt w)
  | kiroPollTickComplete (pt : PendingTick) (o : KiroPollOutcome) (w : TimerWorld)
      (hpend : pt ∈ w.pending) (hkind : pt.kind = .kiro)
      (hlive : ∃ e ∈ w.live, e.id = pt.id ∧ e.key = pt.key) :
      SafeTimerStep w
        (if kiroTickClears o then tickClear pt.key pt.id (removePending pt w)
         else removePending pt w)
  | unmount (w : TimerWorld) : SafeTimerStep w (unmountWorld w)

def initTimerWorld : TimerWorld :=
  { nextId := 0, live := [], reg := [], pending := [] }

/-- Timer states reachable from the freshly mounted component. -/
inductive TimerReachable : TimerWorld → Prop
  | init : TimerReachable initTimerWorld
  | step {w w2 : TimerWorld} : TimerReachable w → TimerStep w w2 → TimerReachable w2

/-- Timer states reachable through stale-free executions only. -/
inductive SafeTimerReachable : TimerWorld → Prop
  | init : SafeTimerReachable initTimerWorld
  | step {w w2 : TimerWorld} :
      SafeTimerReachable w → SafeTimerStep w w2 → SafeTimerReachable w2

/-- The inductive invariant of the stale-free timer system. -/
structure TimerWF (w : TimerWorld) : Prop where
  liveReg : ∀ e ∈ w.live, regGet e.key w.reg = some e.id
  liveLt : ∀ e ∈ w.live, e.id < w.nextId
  regLt : ∀ p t, regGet p w.reg = some t → t < w.nextId
  liveNodup : (w.live.map (fun e => e.id)).Nodup
  livePeriod : ∀ e ∈ w.live, e.periodMs = POLL_INTERVAL_MS
  pendLt : ∀ pt ∈ w.pending, pt.id < w.nextId
  pendKey : ∀ pt ∈ w.pending, ∀ e ∈ w.live, e.id = pt.id → e.key = pt.key

/-- Handle freshness, which holds of every program execution (also the
stale ones). -/
structure TimerBounds (w : TimerWorld) : Prop where
  liveLt : ∀ e ∈ w.live, e.id < w.nextId
  regLt : ∀ p t, regGet p w.reg = some t → t < w.nextId
/-! ## `src/pages/KiroPage.tsx`: the `localStorage` account cache

`JSON.stringify` of a plain account record is modelled by a structural
encoder into `Json` (a field whose value is `undefined` is omitted, as
`JSON.stringify` does); the unchecked `JSON.parse(raw) as KiroAccountItem[]`
cast is modelled by the structural decoder reading the same fields back.
`localStorage` is a partial map from keys to stored (parsed) values. -/

/-- A required object field of a serialized record. -/
def fieldReq (k : String) (v : Json) : List (String × Json) :=
  [(k, v)]

/-- An optional object field: omitted by `JSON.stringify` when the value
is `undefined`. -/
def fieldOpt (k : String) (v : Option Json) : List (String × Json) :=
  match v with
  | none => []
  | some j => [(k, j)]

def encodeFreeTrialInfo (f : KiroFreeTrialInfo) : Json :=
  .obj (fieldReq "currentUsage" (.num f.currentUsage) ++
    fieldReq "usageLimit" (.num f.usageLimit))

def encodeBonus (b : KiroBonus) : Json :=
  .obj (fieldReq "displayName" (.str b.displayName) ++
    fieldReq "currentUsage" (.num b.currentUsage) ++
    fieldReq "usageLimit" (.num b.usageLimit))

def encodeBreakdown (b : KiroUsageBreakdown) : Json :=
  .obj (fieldOpt "currentUsage" (b.currentUsage.map Json.num) ++
    fieldOpt "usageLimit" (b.usageLimit.map Json.num) ++
    fieldOpt "nextDateReset" (b.nextDateReset.map Json.num) ++
    fieldOpt "overageRate" (b.overageRate.map Json.num) ++
    fieldOpt "freeTrialInfo" (b.freeTrialInfo.map encodeFreeTrialInfo) ++
    fieldOpt "bonuses" (b.bonuses.map (fun bs => Json.arr (bs.map encodeBonus))))

def encodeSubscriptionInfo (s : KiroSubscriptionInfo) : Json :=
  .obj (fieldReq "type" (.str s.type) ++
    fieldReq "subscriptionTitle" (.str s.subscriptionTitle) ++
    fieldOpt "overageCapability" (s.overageCapability.map Json.str) ++
    fieldOpt "upgradeCapability" (s.upgradeCapability.map Json.str))

def encodeUserInfo (u : KiroUserInfo) : Json :=
  .obj (fieldOpt "email" (u.email.map Json.str) ++
    fieldOpt "userId" (u.userId.map Json.str))

def encodeOverageConfiguration (o : KiroOverageConfiguration) : Json :=
  .obj (fieldReq "overageStatus" (.str o.overageStatus))

def encodeUsageData (u : KiroUsageData) : Json :=
  .obj (fieldOpt "usageBreakdownList"
      (u.usageBreakdownList.map (fun l => Json.arr (l.map encodeBreakdown))) ++
    fieldOpt "usageBreakdown" (u.usageBreakdown.map encodeBreakdown) ++
    fieldOpt "subscriptionInfo" (u.subscriptionInfo.map encodeSubscriptionInfo) ++
    fieldOpt "userInfo" (u.userInfo.map encodeUserInfo) ++
    fieldOpt "overageConfiguration"
      (u.overageConfiguration.map encodeOverageConfiguration) ++
    fieldOpt "daysUntilReset" (u.daysUntilReset.map Json.num) ++
    fieldOpt "nextDateReset" (u.nextDateReset.map Json.num))

/-- The object fields of a serialized `KiroAccountItem`, in interface
order. -/
def encodeAccountFields (a : KiroAccountItem) : List (String × Json) :=
  fieldReq "id" (.str a.id) ++
  fieldReq "email" (.str a.email) ++
  fieldOpt "label" (a.label.map Json.str) ++
  fieldReq "provider" (.str a.provider) ++
  fieldReq "authMethod" (.str a.authMethod) ++
  fieldReq "status" (.str a.status) ++
  fieldOpt "accessToken" (a.accessToken.map Json.str) ++
  fieldOpt "refreshToken" (a.refreshToken.map Json.str) ++
  fieldOpt "profileArn" (a.profileArn.map Json.str) ++
  fieldOpt "expiresAt" (a.expiresAt.map Json.str) ++
  fieldOpt "clientId" (a.clientId.map Json.str) ++
  fieldOpt "clientSecret" (a.clientSecret.map Json.str) ++
  fieldOpt "clientIdHash" (a.clientIdHash.map Json.str) ++
  fieldOpt "region" (a.region.map Json.str) ++
  fieldOpt "startUrl" (a.startUrl.map Json.str) ++
  fieldOpt "usageData" (a.usageData.map encodeUsageData) ++
  fieldOpt "createdAt" (a.createdAt.map Json.str) ++
  fieldOpt "updatedAt" (a.updatedAt.map Json.str) ++
  fieldOpt "lastRefreshedAt" (a.lastRefreshedAt.map Json.str) ++
  fieldOpt "fileName" (a.fileName.map Json.str) ++
  fieldOpt "filePath" (a.filePath.map Json.str)

def encodeAccount (a : KiroAccountItem) : Json :=
  .obj (encodeAccountFields a)

/-- `JSON.stringify` of the cached account array, at the value level. -/
def encodeAccountList (accounts : List KiroAccountItem) : Json :=
  .arr (accounts.map encodeAccount)

def decNum : Json → Option ℚ
  | .num q => some q
  | _ => none

def decStr : Json → Option String
  | .str s => some s
  | _ => none

/-- Read a required field of a parsed record. -/
def getReq (dec : Json → Option α) (l : List (String × Json)) (k : String) : Option α :=
  (jlookup k l).bind dec

/-- Read an optional field of a parsed record (an absent key reads back as
`undefined`). -/
def getOpt (dec : Json → Option α) (l : List (String × Json)) (k : String) :
    Option (Option α) :=
  match jlookup k l with
  | none => some none
  | some j => (dec j).map some

def decodeFreeTrialInfo : Json → Option KiroFreeTrialInfo
  | .obj l => do
    let currentUsage ← getReq decNum l "currentUsage"
    let usageLimit ← getReq decNum l "usageLimit"
    pure { currentUsage := currentUsage, usageLimit := usageLimit }
  | _ => none

def decodeBonus : Json → Option KiroBonus
  | .obj l => do
    let displayName ← getReq decStr l "displayName"
    let currentUsage ← getReq decNum l "currentUsage"
    let usageLimit ← getReq decNum l "usageLimit"
    pure { displayName := displayName, currentUsage := currentUsage,
           usageLimit := usageLimit }
  | _ => none

def decodeBreakdown : Json → Option KiroUsageBreakdown
  | .obj l => do
    let currentUsage ← getOpt decNum l "currentUsage"
    let usageLimit ← getOpt decNum l "usageLimit"
    let nextDateReset ← getOpt decNum l "nextDateReset"
    let overageRate ← getOpt decNum l "overageRate"
    let freeTrialInfo ← getOpt decodeFreeTrialInfo l "freeTrialInfo"
    let bonuses ← getOpt
      (fun j => match j with
        | .arr bs => bs.mapM decodeBonus
        | _ => none) l "bonuses"
    pure { currentUsage := currentUsage, usageLimit := usageLimit,
           nextDateReset := nextDateReset, overageRate := overageRate,
           freeTrialInfo := freeTrialInfo, bonuses := bonuses }
  | _ => none

def decodeSubscriptionInfo : Json → Option KiroSubscriptionInfo
  | .obj l => do
    let type ← getReq decStr l "type"
    let subscriptionTitle ← getReq decStr l "subscriptionTitle"
    let overageCapability ← getOpt decStr l "overageCapability"
    let upgradeCapability ← getOpt decStr l "upgradeCapability"
    pure { type := type, subscriptionTitle := subscriptionTitle,
           overageCapability := overageCapability,
           upgradeCapability := upgradeCapability }
  | _ => none

def decodeUserInfo : Json → Option KiroUserInfo
  | .obj l => do
    let email ← getOpt decStr l "email"
    let userId ← getOpt decStr l "userId"
    pure { email := email, userId := userId }
  | _ => none

def decodeOverageConfiguration : Json → Option KiroOverageConfiguration
  | .obj l => do
    let overageStatus ← getReq decStr l "overageStatus"
    pure { overageStatus := overageStatus }
  | _ => none

def decodeUsageData : Json → Option KiroUsageData
  | .obj l => do
    let usageBreakdownList ← getOpt
      (fun j => match j with
        | .arr bs => bs.mapM decodeBreakdown
        | _ => none) l "usageBreakdownList"
    let usageBreakdown ← getOpt decodeBreakdown l "usageBreakdown"
    let subscriptionInfo ← getOpt decodeSubscriptionInfo l "subscriptionInfo"
    let userInfo ← getOpt decodeUserInfo l "userInfo"
    let overageConfiguration ← getOpt decodeOverageConfiguration l "overageConfiguration"
    let daysUntilReset ← getOpt decNum l "daysUntilReset"
    let nextDateReset ← getOpt decNum l "nextDateReset"
    pure { usageBreakdownList := usageBreakdownList, usageBreakdown := usageBreakdown,
           subscriptionInfo := subscriptionInfo, userInfo := userInfo,
           overageConfiguration := overageConfiguration,
           daysUntilReset := daysUntilReset, nextDateReset := nextDateReset }
  | _ => none

/-- Read the 21 interface fields of one parsed account record back
(a single simultaneous match keeps the term small). -/
def decodeAccountObj (l : List (String × Json)) : Option KiroAccountItem :=
  match getReq decStr l "id",
    getReq decStr l "email",
    getOpt decStr l "label",
    getReq decStr l "provider",
    getReq decStr l "authMethod",
    getReq decStr l "status",
    getOpt decStr l "accessToken",
    getOpt decStr l "refreshToken",
    getOpt decStr l "profileArn",
    getOpt decStr l "expiresAt",
    getOpt decStr l "clientId",
    getOpt decStr l "clientSecret",
    getOpt decStr l "clientIdHash",
    getOpt decStr l "region",
    getOpt decStr l "startUrl",
    getOpt decodeUsageData l "usageData",
    getOpt decStr l "createdAt",
    getOpt decStr l "updatedAt",
    getOpt decStr l "lastRefreshedAt",
    getOpt decStr l "fileName",
    getOpt decStr l "filePath" with
  | some id, some email, some label, some provider, some authMethod, some status, some accessToken, some refreshToken, some profileArn, some expiresAt, some clientId, some clientSecret, some clientIdHash, some region, some startUrl, some usageData, some createdAt, some updatedAt, some lastRefreshedAt, some fileName, some filePath =>
    some (KiroAccountItem.mk id email label provider authMethod status accessToken refreshToken profileArn expiresAt clientId clientSecret clientIdHash region startUrl usageData createdAt updatedAt lastRefreshedAt fileName filePath)
  | _, _, _, _, _, _, _, _, _, _, _, _, _, _, _, _, _, _, _, _, _ => none

def decodeAccount : Json → Option KiroAccountItem
  | .obj l => decodeAccountObj l
  | _ => none

/-- The `JSON.parse(raw) as KiroAccountItem[]` read-back of a stored cache
value (`none` when the stored value does not have the account-array
shape). -/
def decodeAccountList : Json → Option (List KiroAccountItem)
  | .arr l => l.mapM decodeAccount
  | _ => none

/-- Browser `localStorage` at the value level. -/
def Storage : Type := String → Option Json

def CACHE_KEY : String := "kiro_accounts_cache"

/-- `localStorage.setItem(CACHE_KEY, JSON.stringify(accounts))`. -/
def saveCacheToStorage (accounts : List KiroAccountItem) (s : Storage) : Storage :=
  fun k => if k = CACHE_KEY then some (encodeAccountList accounts) else s k

/-- The all-zero stats used before any account is known. -/
def emptyStats : KiroAccountStats :=
  { total := 0, active := 0, banned := 0, expired := 0, proPlus := 0, pro := 0,
    free := 0, totalQuota := 0, totalUsed := 0, usagePercent := 0, remaining := 0 }

/-- `loadCacheFromStorage`: read the cached account list back and derive
its stats; any failure falls back to the empty cache. -/
def loadCacheFromStorage (s : Storage) : List KiroAccountItem × KiroAccountStats :=
  match s CACHE_KEY with
  | some raw =>
    match decodeAccountList raw with
    | some accounts => (accounts, calcAccountStats accounts)
    | none => ([], emptyStats)
  | none => ([], emptyStats)

/-- The page state touched by `updateCache`: the module-level cache, the
browser storage and the two React state cells. -/
structure KiroPageState where
  cachedAccounts : List KiroAccountItem
  cachedStats : KiroAccountStats
  storage : Storage
  accounts : List KiroAccountItem
  stats : KiroAccountStats

/-- `updateCache`. -/
def updateCache (newAccounts : List KiroAccountItem) (s : KiroPageState) : KiroPageState :=
  { cachedAccounts := newAccounts,
    cachedStats := calcAccountStats newAccounts,
    storage := saveCacheToStorage newAccounts s.storage,
    accounts := newAccounts,
    stats := calcAccountStats newAccounts }

/-! ## Basic lemmas about the stats -/

theorem calcStats_total (accounts : List KiroAccountItem) :
    (calcAccountStats accounts).total = accounts.length := rfl

theorem calcStats_proPlus (accounts : List KiroAccountItem) :
    (calcAccountStats accounts).proPlus = (accounts.filter isProPlus).length := rfl

theorem calcStats_pro (accounts : List KiroAccountItem) :
    (calcAccountStats accounts).pro = (accounts.filter isPro).length := rfl

theorem calcStats_totalQuota (accounts : List KiroAccountItem) :
    (calcAccountStats accounts).totalQuota =
      jsRound ((accounts.filter (fun a => decide (0 ≤ getQuota a))).foldl
        (fun sum a => sum + getQuota a) 0) := rfl

theorem calcStats_totalUsed (accounts : List KiroAccountItem) :
    (calcAccountStats accounts).totalUsed =
      jsRound ((accounts.filter (fun a => decide (0 ≤ getQuota a))).foldl
        (fun sum a =>
          let used := getUsed a
          sum + (if 0 ≤ used then used else 0)) 0) := rfl

theorem calcStats_remaining (accounts : List KiroAccountItem) :
    (calcAccountStats accounts).remaining =
      (calcAccountStats accounts).totalQuota - (calcAccountStats accounts).totalUsed := rfl

/-- Summing by `reduce((sum, a) => sum + f(a), 0)` is summing the mapped
list. -/
theorem foldl_add_eq_sum_map (f : α → ℚ) (l : List α) :
    l.foldl (fun sum a => sum + f a) 0 = (l.map f).sum := by
  rw [List.sum_eq_foldl, List.foldl_map]

/-- Two pointwise-exclusive filters never count one element twice. -/
theorem length_filter_add_length_filter_le (p q : α → Bool)
    (h : ∀ a, (p a && q a) = false) (l : List α) :
    (l.filter p).length + (l.filter q).length ≤ l.length := by
  induction l with
  | nil => simp
  | cons a t ih =>
    have ha := h a
    by_cases hp : p a <;> by_cases hq : q a <;>
      simp [List.filter_cons, hp, hq] at ha ⊢ <;> omega

/-- C8: `getUsagePercent` is total: it returns `0` when the quota is `0`
and `min 100 (used / quota * 100)` otherwise, and for `used ≥ 0`,
`quota > 0` the result lies in `[0, 100]`. -/
theorem getUsagePercent_total_and_bounded :
    (∀ used : ℚ, getUsagePercent used 0 = 0) ∧
    (∀ used quota : ℚ, quota ≠ 0 →
      getUsagePercent used quota = min 100 (used / quota * 100)) ∧
    (∀ used quota : ℚ, 0 ≤ used → 0 < quota →
      0 ≤ getUsagePercent used quota ∧ getUsagePercent used quota ≤ 100) := by
  refine ⟨fun used => by simp [getUsagePercent],
    fun used quota h => by simp [getUsagePercent, h], ?_⟩
  intro used quota hu hq
  have hq2 : quota ≠ 0 := ne_of_gt hq
  simp only [getUsagePercent, if_neg hq2]
  refine ⟨le_min (by norm_num) (by positivity), min_le_left _ _⟩

/-- Witness for C8 at `used = 50`, `quota = 200` (and quota `0`). -/
theorem getUsagePercent_total_and_bounded_witness :
    getUsagePercent 50 0 = 0 ∧
      0 ≤ getUsagePercent 50 200 ∧ getUsagePercent 50 200 ≤ 100 :=
  ⟨getUsagePercent_total_and_bounded.1 50,
   getUsagePercent_total_and_bounded.2.2 50 200 (by norm_num) (by norm_num)⟩

/-- C10: `isPro` and `isProPlus` are never both true (`isPro` short
circuits to `false` on a Pro+ account), so `calcAccountStats` never counts
an account in both the `proPlus` and `pro` totals. -/
theorem isPro_isProPlus_exclusive :
    (∀ account : KiroAccountItem, (isProPlus account && isPro account) = false) ∧
    (∀ accounts : List KiroAccountItem,
      (calcAccountStats accounts).proPlus + (calcAccountStats accounts).pro ≤
        (calcAccountStats accounts).total) := by
  have hexc : ∀ account : KiroAccountItem, (isProPlus account && isPro account) = false := by
    intro account
    by_cases h : isProPlus account <;> simp [isPro, h]
  refine ⟨hexc, fun accounts => ?_⟩
  rw [calcStats_proPlus, calcStats_pro, calcStats_total]
  exact length_filter_add_length_filter_le isProPlus isPro hexc accounts

/-- C9: in the stats of any account list, `remaining` is exactly
`totalQuota - totalUsed`, where `totalQuota` is the (rounded) sum of
`getQuota` over the accounts with `getQuota ≥ 0` and `totalUsed` the
(rounded) sum, over the same accounts, of `getUsed` clamped below at 0. -/
theorem calcAccountStats_remaining_spec (accounts : List KiroAccountItem) :
    (calcAccountStats accounts).remaining =
      (calcAccountStats accounts).totalQuota - (calcAccountStats accounts).totalUsed ∧
    (calcAccountStats accounts).totalQuota =
      jsRound (((accounts.filter (fun a => decide (0 ≤ getQuota a))).map getQuota).sum) ∧
    (calcAccountStats accounts).totalUsed =
      jsRound (((accounts.filter (fun a => decide (0 ≤ getQuota a))).map
        (fun a => if 0 ≤ getUsed a then getUsed a else 0)).sum) := by
  refine ⟨calcStats_remaining accounts, ?_, ?_⟩
  · rw [calcStats_totalQuota, foldl_add_eq_sum_map]
  · rw [calcStats_totalUsed, foldl_add_eq_sum_map]

/-! ## C5: batch deletion -/

theorem length_filter_add_length_filter_not (p : α → Bool) (l : List α) :
    (l.filter p).length + (l.filter (fun a => !p a)).length = l.length := by
  induction l with
  | nil => simp
  | cons a t ih => by_cases h : p a <;> simp [List.filter_cons, h] <;> omega

/-- C5: `deleteAccounts` attempts one delete per id, in input order; the
returned `deleted` and `errors` lists partition the input ids in input
order, and `success` holds exactly when `errors` is empty. -/
theorem deleteAccounts_spec (del : String → Bool) (ids : List String) :
    (deleteAccounts del ids).calls = ids.map toFileName ∧
    (deleteAccounts del ids).deleted = ids.filter (fun id => del (toFileName id)) ∧
    (deleteAccounts del ids).errors = ids.filter (fun id => !del (toFileName id)) ∧
    (deleteAccounts del ids).deleted.length + (deleteAccounts del ids).errors.length =
      ids.length ∧
    ((deleteAccounts del ids).success = true ↔ (deleteAccounts del ids).errors = []) := by
  have key : (deleteAccounts del ids).calls = ids.map toFileName ∧
      (deleteAccounts del ids).deleted = ids.filter (fun id => del (toFileName id)) ∧
      (deleteAccounts del ids).errors = ids.filter (fun id => !del (toFileName id)) ∧
      (deleteAccounts del ids).success = (deleteAccounts del ids).errors.isEmpty := by
    induction ids with
    | nil => simp [deleteAccounts]
    | cons id rest ih =>
      obtain ⟨h1, h2, h3, _⟩ := ih
      by_cases h : del (toFileName id) <;>
        simp [deleteAccounts, h, h1, h2, h3, List.filter_cons]
  obtain ⟨h1, h2, h3, h4⟩ := key
  refine ⟨h1, h2, h3, ?_, ?_⟩
  · rw [h2, h3]
    exact length_filter_add_length_filter_not _ ids
  · rw [h4, List.isEmpty_iff]

/-! ## C6: the account listing -/

/-- `replaceFirstAux` leaves a list without any occurrence of the pattern
unchanged. -/
theorem replaceFirstAux_no_occurrence (pat repl l : List Char)
    (h : listSub pat l = false) : replaceFirstAux pat repl l = l := by
  induction l with
  | nil => simp [replaceFirstAux]
  | cons c rest ih =>
    simp only [listSub, Bool.or_eq_false_iff] at h
    simp [replaceFirstAux, h.1, ih h.2]

/-- `replaceFirstAux` on a list the pattern starts. -/
theorem replaceFirstAux_of_isPrefixOf (pat repl l : List Char) (hne : pat ≠ [])
    (h : pat.isPrefixOf l = true) :
    replaceFirstAux pat repl l = repl ++ l.drop pat.length := by
  cases l with
  | nil =>
    cases pat with
    | nil => exact absurd rfl hne
    | cons p ps => simp [List.isPrefixOf] at h
  | cons c rest => simp [replaceFirstAux, h]

/-- `replaceFirstAux` rewrites exactly the first occurrence of the
pattern. -/
theorem replaceFirstAux_first_occurrence (pat repl pre post : List Char)
    (hpat : pat ≠ [])
    (hno : ∀ i, i < pre.length → pat.isPrefixOf ((pre ++ pat ++ post).drop i) = false) :
    replaceFirstAux pat repl (pre ++ pat ++ post) = pre ++ repl ++ post := by
  induction pre with
  | nil =>
    have hpref : pat.isPrefixOf (pat ++ post) = true := by
      rw [List.isPrefixOf_iff_prefix]
      exact List.prefix_append _ _
    rw [List.nil_append, replaceFirstAux_of_isPrefixOf _ _ _ hpat hpref,
      List.drop_left, List.nil_append]
  | cons c cs ih =>
    have h0 := hno 0 (by simp)
    simp only [List.drop_zero, List.cons_append] at h0
    have hno2 : ∀ i, i < cs.length →
        pat.isPrefixOf ((cs ++ pat ++ post).drop i) = false := by
      intro i hi
      have := hno (i + 1) (by simpa using Nat.succ_lt_succ hi)
      simpa using this
    simp only [List.cons_append, replaceFirstAux, List.append_eq, h0, Bool.false_eq_true,
      if_false]
    rw [ih hno2]

/-- `filterMap` with an `if p then some (f x) else none` body is
`map f ∘ filter p`. -/
theorem filterMap_guard_eq (p : α → Bool) (f : α → β) (l : List α) :
    l.filterMap (fun x => if p x then some (f x) else none) = (l.filter p).map f := by
  induction l with
  | nil => rfl
  | cons a t ih => by_cases h : p a <;> simp [List.filterMap_cons, List.filter_cons, h, ih]

/-- C6 (amended): `getAccounts` keeps exactly the files whose lower-cased
name starts with `'kiro-'` or `'amazonq-'`, one account per kept file in
listing order, and the account id is the file name with its *first*
occurrence of `'.json'` removed (the name unchanged when `'.json'` does
not occur in it). -/
theorem getAccounts_spec (response : Option AuthFilesResponse) :
    getAccounts response =
      (((response.bind (fun r => r.files)).getD []).filter
        (fun file => strStartsWith (jsToLower file.name) "kiro-" ||
          strStartsWith (jsToLower file.name) "amazonq-")).map mkListedAccount ∧
    (∀ file : AuthFile, (mkListedAccount file).id = jsReplaceFirst file.name ".json" "") ∧
    (∀ s : String, strIncludes s ".json" = false → jsReplaceFirst s ".json" "" = s) ∧
    (∀ pre post : String,
      (∀ i, i < pre.data.length →
        (".json".data).isPrefixOf ((pre.data ++ ".json".data ++ post.data).drop i) = false) →
      jsReplaceFirst (pre ++ ".json" ++ post) ".json" "" = pre ++ post) := by
  refine ⟨?_, fun file => rfl, ?_, ?_⟩
  · show (((response.bind (fun r => r.files)).getD []).filterMap
        (fun file => if isKiroAuthFile file.name then some (mkListedAccount file) else none)) = _
    rw [filterMap_guard_eq]
    have hpred : ∀ file : AuthFile,
        isKiroAuthFile file.name =
          (strStartsWith (jsToLower file.name) "kiro-" ||
            strStartsWith (jsToLower file.name) "amazonq-") := by
      intro file
      simp [isKiroAuthFile, KIRO_FILE_PREFIXES, List.any_cons, List.any_nil]
    rw [List.filter_congr (fun file _ => hpred file)]
  · intro s h
    unfold jsReplaceFirst
    rw [replaceFirstAux_no_occurrence _ _ _ h]
  · intro pre post hno
    unfold jsReplaceFirst
    have hdata : (pre ++ ".json" ++ post).data = pre.data ++ ".json".data ++ post.data := by
      simp [String.data_append]
    rw [hdata, replaceFirstAux_first_occurrence _ _ _ _ (by decide) hno]
    show String.mk (pre.data ++ ("" : String).data ++ post.data) = pre ++ post
    apply congrArg String.mk
    simp

/-- Witness for C6 at the file name `kiro-a.json`: the id is `kiro-a`. -/
theorem getAccounts_spec_witness :
    jsReplaceFirst ("kiro-a" ++ ".json" ++ "") ".json" "" = "kiro-a" ++ "" :=
  (getAccounts_spec none).2.2.2 "kiro-a" "" (by decide)

/-- C6 counterexample to the claim as stated: for the listed file
`kiro-.jsonx.json` the account id is `kiro-x.json` (the first occurrence
of `.json` is removed), not `kiro-.jsonx` (the name with the `.json`
suffix removed). -/
theorem getAccounts_id_counterexample :
    ((getAccounts (some
        { files := some [{ name := "kiro-.jsonx.json", email := none, label := none,
                           status := none }] })).map (fun a => a.id) = ["kiro-x.json"]) ∧
      ("kiro-x.json" : String) ≠ "kiro-.jsonx" := by
  constructor
  · rfl
  · decide

/-! ## C7: refresh-all -/

/-- How one listed account is rewritten by `refreshAllAccounts`: the
re-read (re-parsed) record when its `GET` succeeds and yields an account,
the original listed record otherwise. -/
def refreshOutcome (get : String → Except String (Option AuthFileContent))
    (isFutureDate : String → Bool) (account : KiroAccountItem) : KiroAccountItem :=
  match get (toFileName account.id) with
  | .error _ => account
  | .ok content =>
    match parseKiroAuthFile (toFileName account.id)
        (content.getD emptyAuthFileContent) isFutureDate with
    | some acc => acc
    | none => account

theorem refreshAllGo_spec (get : String → Except String (Option AuthFileContent))
    (isFutureDate : String → Bool) (l : List KiroAccountItem) :
    (refreshAllGo get isFutureDate l).success + (refreshAllGo get isFutureDate l).failed =
      l.length ∧
    (refreshAllGo get isFutureDate l).accounts = l.map (refreshOutcome get isFutureDate) := by
  induction l with
  | nil => simp [refreshAllGo]
  | cons a rest ih =>
    obtain ⟨h1, h2⟩ := ih
    cases hget : get (toFileName a.id) with
    | error e =>
      refine ⟨?_, ?_⟩ <;>
        simp [refreshAllGo, refreshAccount, refreshOutcome, hget, h2] <;> omega
    | ok content =>
      cases hparse : parseKiroAuthFile (toFileName a.id)
          (content.getD emptyAuthFileContent) isFutureDate with
      | none =>
        refine ⟨?_, ?_⟩ <;>
          simp [refreshAllGo, refreshAccount, refreshOutcome, hget, hparse, h2] <;> omega
      | some acc =>
        refine ⟨?_, ?_⟩ <;>
          simp [refreshAllGo, refreshAccount, refreshOutcome, hget, hparse, h2] <;> omega

/-- C7: `refreshAllAccounts` refreshes every listed account: the success
and failure counts sum to the number of listed accounts, and the returned
array has exactly one entry per listed account in listing order — the
re-read record when the per-account refresh succeeds, the original listed
record when it fails. -/
theorem refreshAllAccounts_spec (response : Option AuthFilesResponse)
    (get : String → Except String (Option AuthFileContent))
    (isFutureDate : String → Bool) :
    (refreshAllAccounts response get isFutureDate).success +
      (refreshAllAccounts response get isFutureDate).failed =
        (getAccounts response).length ∧
    (refreshAllAccounts response get isFutureDate).accounts.length =
      (getAccounts response).length ∧
    (refreshAllAccounts response get isFutureDate).accounts =
      (getAccounts response).map (refreshOutcome get isFutureDate) := by
  obtain ⟨h1, h2⟩ := refreshAllGo_spec get isFutureDate (getAccounts response)
  exact ⟨h1, by rw [refreshAllAccounts, h2, List.length_map], h2⟩

/-! ## C1: batched usage refresh -/

/-- The batch slices are consecutive and cover the input exactly. -/
theorem chunksOf10_flatten (l : List α) : (chunksOf10 l).flatten = l := by
  have H : ∀ (n : ℕ) (l : List α), l.length ≤ n → (chunksOf10 l).flatten = l := by
    intro n
    induction n with
    | zero =>
      intro l hl
      have : l = [] := List.eq_nil_of_length_eq_zero (by omega)
      subst this
      simp [chunksOf10]
    | succ n ih =>
      intro l hl
      cases l with
      | nil => simp [chunksOf10]
      | cons a rest =>
        simp only [chunksOf10, List.flatten_cons]
        rw [ih ((a :: rest).drop BATCH_SIZE) (by simp [BATCH_SIZE] at hl ⊢; omega)]
        exact List.take_append_drop _ _
  exact H l.length l le_rfl

/-- Every batch slice holds at most `BATCH_SIZE` accounts. -/
theorem chunksOf10_length_le (l : List α) : ∀ c ∈ chunksOf10 l, c.length ≤ BATCH_SIZE := by
  have H : ∀ (n : ℕ) (l : List α), l.length ≤ n →
      ∀ c ∈ chunksOf10 l, c.length ≤ BATCH_SIZE := by
    intro n
    induction n with
    | zero =>
      intro l hl c hc
      have : l = [] := List.eq_nil_of_length_eq_zero (by omega)
      subst this
      simp [chunksOf10] at hc
    | succ n ih =>
      intro l hl c hc
      cases l with
      | nil => simp [chunksOf10] at hc
      | cons a rest =>
        simp only [chunksOf10, List.mem_cons] at hc
        rcases hc with hc | hc
        · subst hc
          simpa using List.length_take_le _ _
        · exact ih ((a :: rest).drop BATCH_SIZE) (by simp [BATCH_SIZE] at hl ⊢; omega) c hc
  exact H l.length l le_rfl

theorem fetchUsageGo_spec (u : String → Option KiroUsageResp) :
    ∀ (n : ℕ) (done pending : List KiroAccountItem), pending.length ≤ n →
      (fetchUsageGo u done pending).final = done ++ pending.map (applyUsage u) ∧
      (fetchUsageGo u done pending).callBatches = (chunksOf10 pending).map batchCalls ∧
      (fetchUsageGo u done pending).cacheWrites.length = (chunksOf10 pending).length ∧
      (∀ k, k < (fetchUsageGo u done pending).cacheWrites.length →
        (fetchUsageGo u done pending).cacheWrites[k]? =
          some (done ++ (pending.take (BATCH_SIZE * (k + 1))).map (applyUsage u) ++
            pending.drop (BATCH_SIZE * (k + 1)))) := by
  intro n
  induction n with
  | zero =>
    intro done pending hl
    have : pending = [] := List.eq_nil_of_length_eq_zero (by omega)
    subst this
    simp [fetchUsageGo, chunksOf10]
  | succ n ih =>
    intro done pending hl
    cases pending with
    | nil => simp [fetchUsageGo, chunksOf10]
    | cons a rest =>
      have hlen : ((a :: rest).drop BATCH_SIZE).length ≤ n := by
        simp [BATCH_SIZE] at hl ⊢
        omega
      obtain ⟨ihf, ihc, ihn, ihw⟩ :=
        ih (done ++ ((a :: rest).take BATCH_SIZE).map (applyUsage u))
          ((a :: rest).drop BATCH_SIZE) hlen
      refine ⟨?_, ?_, ?_, ?_⟩
      · simp only [fetchUsageGo, ihf]
        rw [List.append_assoc, ← List.map_append, List.take_append_drop]
      · simp only [fetchUsageGo, ihc, chunksOf10, List.map_cons]
      · simp only [fetchUsageGo, chunksOf10, ihn, List.length_cons]
      · intro k hk
        simp only [fetchUsageGo] at hk ⊢
        cases k with
        | zero =>
          simp only [List.getElem?_cons_zero]
          simp [List.append_assoc]
        | succ k =>
          simp only [List.getElem?_cons_succ, List.length_cons] at hk ⊢
          have hk2 : k < (fetchUsageGo u
              (done ++ ((a :: rest).take BATCH_SIZE).map (applyUsage u))
              ((a :: rest).drop BATCH_SIZE)).cacheWrites.length := by omega
          rw [ihw k hk2]
          have hmul : BATCH_SIZE * (k + 1 + 1) = BATCH_SIZE + BATCH_SIZE * (k + 1) := by
            ring
          rw [hmul, List.take_add, List.drop_drop, List.map_append]
          simp [List.append_assoc]

/-- C1: `fetchUsageForAccounts` issues its `/kiro-usage` requests in
consecutive batches of at most `BATCH_SIZE = 10` accounts (the batch
slices are consecutive and cover the input), processes the batches
sequentially with one cache write after each batch settles (the k-th write
reflecting exactly the first `10·(k+1)` entries refreshed), and ends with
exactly one entry per input account, in input order, each rewritten only
by its own usage response. -/
theorem fetchUsageForAccounts_spec (u : String → Option KiroUsageResp)
    (accountList : List KiroAccountItem) :
    (fetchUsageForAccounts u accountList).final = accountList.map (applyUsage u) ∧
    (fetchUsageForAccounts u accountList).callBatches =
      (chunksOf10 accountList).map batchCalls ∧
    (chunksOf10 accountList).flatten = accountList ∧
    (∀ b ∈ (fetchUsageForAccounts u accountList).callBatches, b.length ≤ BATCH_SIZE) ∧
    BATCH_SIZE = 10 ∧
    (fetchUsageForAccounts u accountList).cacheWrites.length =
      (chunksOf10 accountList).length ∧
    (∀ k, k < (fetchUsageForAccounts u accountList).cacheWrites.length →
      (fetchUsageForAccounts u accountList).cacheWrites[k]? =
        some ((accountList.take (BATCH_SIZE * (k + 1))).map (applyUsage u) ++
          accountList.drop (BATCH_SIZE * (k + 1)))) := by
  obtain ⟨hf, hc, hn, hw⟩ :=
    fetchUsageGo_spec u accountList.length [] accountList le_rfl
  simp only [fetchUsageForAccounts]
  refine ⟨by simpa using hf, hc, chunksOf10_flatten accountList, ?_, rfl, hn, ?_⟩
  · intro b hb
    rw [hc] at hb
    obtain ⟨c, hcmem, rfl⟩ := List.mem_map.mp hb
    calc (batchCalls c).length ≤ c.length := List.length_filterMap_le _ _
      _ ≤ BATCH_SIZE := chunksOf10_length_le accountList c hcmem
  · intro k hk
    simpa using hw k hk

/-! ## C4: the import modal's `parseJson` -/

/-- Specification-side classification of one parsed entry: `valid` when
its `refreshToken` is a string starting with `'aor'`; `invalid` with
reason `'Missing refreshToken'` when the entry has no truthy
`refreshToken` and `'Invalid refreshToken'` when the token is a string not
starting with `'aor'`; `aborts` when the entry makes the `forEach` body
throw a `TypeError` (a `null` entry, or a truthy non-string
`refreshToken`). -/
inductive EntrySpec where
  | valid : EntrySpec
  | invalid : String → EntrySpec
  | aborts : EntrySpec
deriving DecidableEq

def entrySpec (account : Json) : EntrySpec :=
  match account with
  | .null => .aborts
  | .obj l =>
    match jlookup "refreshToken" l with
    | none => .invalid "Missing refreshToken"
    | some v =>
      if jTruthy (.val v) then
        match v with
        | .str s =>
          if strStartsWith s "aor" then .valid else .invalid "Invalid refreshToken"
        | _ => .aborts
      else .invalid "Missing refreshToken"
  | _ => .invalid "Missing refreshToken"

/-- The `account.email || '#' + (index + 1)` computation (the `error`
branch is unreachable where this is used). -/
def entryEmail (account : Json) (index : ℕ) : JVal :=
  match jsGetField account "email" with
  | .error _ => .val (.str ("#" ++ toString (index + 1)))
  | .ok emailRaw =>
    if jTruthy emailRaw then emailRaw else .val (.str ("#" ++ toString (index + 1)))

/-- Property access on an object never throws. -/
theorem jsGetField_obj (l : List (String × Json)) (k : String) :
    jsGetField (Json.obj l) k =
      .ok (match jlookup k l with | some v => JVal.val v | none => JVal.undefined) := by
  cases h : jlookup k l <;> simp [jsGetField, h]

/-- `classifyEntry` agrees with the specification-side classification. -/
theorem classifyEntry_eq (account : Json) (index : ℕ) :
    classifyEntry account index =
      match entrySpec account with
      | .aborts => .error ()
      | .valid => .ok (.inl account)
      | .invalid reason =>
        .ok (.inr { index := (index : ℤ), reason := reason,
                    email := some (entryEmail account index) }) := by
  cases account with
  | null => rfl
  | bool b => cases b <;> rfl
  | num q => simp [classifyEntry, entrySpec, entryEmail, jsGetField, jTruthy]
  | str s => simp [classifyEntry, entrySpec, entryEmail, jsGetField, jTruthy]
  | arr l => simp [classifyEntry, entrySpec, entryEmail, jsGetField, jTruthy]
  | obj l =>
    cases hrt : jlookup "refreshToken" l with
    | none =>
      simp [classifyEntry, entrySpec, entryEmail, jsGetField_obj, hrt, jTruthy]
    | some v =>
      cases v with
      | null => simp [classifyEntry, entrySpec, entryEmail, jsGetField_obj, hrt, jTruthy]
      | bool b =>
        cases b <;> simp [classifyEntry, entrySpec, entryEmail, jsGetField_obj, hrt, jTruthy]
      | num q =>
        by_cases hq : q = 0 <;>
          simp [classifyEntry, entrySpec, entryEmail, jsGetField_obj, hrt, jTruthy, hq]
      | str s =>
        by_cases hs : s = "" <;>
          by_cases ha : strStartsWith s "aor" <;>
            simp [classifyEntry, entrySpec, entryEmail, jsGetField_obj, hrt, jTruthy, hs, ha]
      | arr l2 => simp [classifyEntry, entrySpec, entryEmail, jsGetField_obj, hrt, jTruthy]
      | obj l2 => simp [classifyEntry, entrySpec, entryEmail, jsGetField_obj, hrt, jTruthy]

/-- The `invalid` entry the loop produces for one entry at an absolute
index, if any. -/
def invalidEntrySpec (p : ℕ × Json) : Option InvalidEntry :=
  match entrySpec p.2 with
  | .invalid reason =>
    some { index := (p.1 : ℤ), reason := reason, email := some (entryEmail p.2 p.1) }
  | _ => none

theorem classifyList_error (start : ℕ) (entries : List Json)
    (h : ∃ e ∈ entries, entrySpec e = .aborts) :
    classifyList start entries = .error () := by
  induction entries generalizing start with
  | nil => simp at h
  | cons e rest ih =>
    obtain ⟨x, hx, hab⟩ := h
    rw [List.mem_cons] at hx
    rcases hx with rfl | hx
    · simp [classifyList, classifyEntry_eq, hab]
    · rw [classifyList, classifyEntry_eq]
      cases hspec : entrySpec e <;>
        simp [ih (start + 1) ⟨x, hx, hab⟩]
  
theorem classifyList_ok (start : ℕ) (entries : List Json)
    (h : ∀ e ∈ entries, entrySpec e ≠ .aborts) :
    classifyList start entries =
      .ok { valid := entries.filter (fun e => decide (entrySpec e = .valid)),
            invalid := (entries.enumFrom start).filterMap invalidEntrySpec } := by
  induction entries generalizing start with
  | nil => rfl
  | cons e rest ih =>
    have hrest : ∀ x ∈ rest, entrySpec x ≠ .aborts := fun x hx => h x (List.mem_cons_of_mem e hx)
    rw [classifyList, classifyEntry_eq, ih (start + 1) hrest]
    cases hspec : entrySpec e with
    | aborts => exact absurd hspec (h e (List.mem_cons_self e rest))
    | valid =>
      simp [List.filter_cons, hspec, List.enumFrom_cons, List.filterMap_cons, invalidEntrySpec]
    | invalid reason =>
      simp [List.filter_cons, hspec, List.enumFrom_cons, List.filterMap_cons, invalidEntrySpec]

/-- C4 counterexample to the claim as stated: blank text is not valid
JSON, yet `parseJson` returns `null` (no result at all) for it instead of
a result with exactly one `'Invalid JSON format'` entry. -/
theorem parseJson_blank_counterexample :
    parseJson "" (fun _ => none) = none ∧ invalidJsonResult.invalid.length = 1 := ⟨rfl, rfl⟩

/-- C4 (amended): for blank (trim-empty) text `parseJson` yields no
result; otherwise unparseable text yields exactly the single
`'Invalid JSON format'` invalid entry; a parsed non-array is treated as a
one-element list, and if any entry makes the classification throw (a
`null` entry, or a truthy non-string `refreshToken`) the whole result
collapses to that same single `'Invalid JSON format'` entry; otherwise
every entry lands, in input order, in `valid` exactly when its
`refreshToken` is a string starting with `'aor'`, and in `invalid` with
reason `'Missing refreshToken'` when its `refreshToken` is absent or
falsy and `'Invalid refreshToken'` when it is a string not starting with
`'aor'`. -/
theorem parseJson_spec (text : String) (parse : String → Option Json) :
    (jsTrim text = "" → parseJson text parse = none) ∧
    (jsTrim text ≠ "" → parse text = none → parseJson text parse = some invalidJsonResult) ∧
    (∀ data, jsTrim text ≠ "" → parse text = some data →
      ((∃ e ∈ jsToArray data, entrySpec e = .aborts) →
        parseJson text parse = some invalidJsonResult)) ∧
    (∀ data, jsTrim text ≠ "" → parse text = some data →
      (∀ e ∈ jsToArray data, entrySpec e ≠ .aborts) →
      parseJson text parse = some
        { valid := (jsToArray data).filter (fun e => decide (entrySpec e = .valid)),
          invalid := ((jsToArray data).enumFrom 0).filterMap invalidEntrySpec }) := by
  refine ⟨fun h => by simp [parseJson, h], fun h hp => by simp [parseJson, h, hp], ?_, ?_⟩
  · intro data h hp hab
    simp [parseJson, h, hp, classifyList_error 0 (jsToArray data) hab]
  · intro data h hp hok
    simp [parseJson, h, hp, classifyList_ok 0 (jsToArray data) hok]

/-- Witness for C4: a two-entry array with one valid and one invalid
entry, plus the blank and unparseable cases. -/
theorem parseJson_spec_witness :
    parseJson "" (fun _ => none) = none ∧
    parseJson "nonsense" (fun _ => none) = some invalidJsonResult ∧
    parseJson "[x]"
        (fun _ => some (.arr [.obj [("refreshToken", .str "aorTOKEN")], .num 1])) =
      some { valid := [.obj [("refreshToken", .str "aorTOKEN")]],
             invalid := [{ index := 1, reason := "Missing refreshToken",
                           email := some (.val (.str "#2")) }] } := by
  refine ⟨(parseJson_spec "" (fun _ => none)).1 rfl,
    (parseJson_spec "nonsense" (fun _ => none)).2.1 (by decide) rfl, ?_⟩
  have h := (parseJson_spec "[x]"
      (fun _ => some (.arr [.obj [("refreshToken", .str "aorTOKEN")], .num 1]))).2.2.2
    (.arr [.obj [("refreshToken", .str "aorTOKEN")], .num 1]) (by decide) rfl (by decide)
  rw [h]
  rfl

/-! ## C2: the storage round trip -/

/-- `jor a b`: `a` when present, else `b` (the shape `jlookup` takes on an
optional serialized field). -/
def jor (a b : Option α) : Option α :=
  match a with
  | some x => some x
  | none => b

@[simp] theorem jor_some (x : α) (b : Option α) : jor (some x) b = some x := rfl

@[simp] theorem jor_none (b : Option α) : jor none b = b := rfl

@[simp] theorem jor_none_right (a : Option α) : jor a none = a := by
  cases a <;> rfl

@[simp] theorem jlookup_nil (k : String) : jlookup k [] = none := rfl

@[simp] theorem jlookup_fieldReq (k k' : String) (v : Json) (l : List (String × Json)) :
    jlookup k (fieldReq k' v ++ l) = if k' = k then some v else jlookup k l := by
  simp [fieldReq, jlookup]

@[simp] theorem jlookup_fieldOpt (k k' : String) (v : Option Json) (l : List (String × Json)) :
    jlookup k (fieldOpt k' v ++ l) = if k' = k then jor v (jlookup k l) else jlookup k l := by
  cases v with
  | none => simp [fieldOpt, jor]
  | some j => simp [fieldOpt, jlookup, jor]

@[simp] theorem jlookup_fieldOpt_nil (k k' : String) (v : Option Json) :
    jlookup k (fieldOpt k' v) = if k' = k then v else none := by
  cases v <;> simp [fieldOpt, jlookup]

theorem getReq_eq (dec : Json → Option α) (l : List (String × Json)) (k : String)
    (j : Json) (x : α) (hl : jlookup k l = some j) (hj : dec j = some x) :
    getReq dec l k = some x := by
  simp [getReq, hl, hj]

theorem getOpt_eq (dec : Json → Option α) (enc : α → Json)
    (h : ∀ x, dec (enc x) = some x) (l : List (String × Json)) (k : String)
    (v : Option α) (hl : jlookup k l = v.map enc) :
    getOpt dec l k = some v := by
  cases v with
  | none =>
    simp only [Option.map_none'] at hl
    simp [getOpt, hl]
  | some x =>
    simp only [Option.map_some'] at hl
    simp [getOpt, hl, h]

theorem decodeFreeTrialInfo_encode (f : KiroFreeTrialInfo) :
    decodeFreeTrialInfo (encodeFreeTrialInfo f) = some f := rfl

theorem decodeBonus_encode (b : KiroBonus) :
    decodeBonus (encodeBonus b) = some b := rfl

/-- Decoding the element-wise encoding of a list recovers the list
(stated for the accumulator loop of `List.mapM`). -/
theorem mapM_loop_encode (dec : Json → Option α) (enc : α → Json)
    (h : ∀ x, dec (enc x) = some x) (l acc : List α) :
    List.mapM.loop dec (l.map enc) acc = some (acc.reverse ++ l) := by
  induction l generalizing acc with
  | nil => simp [List.mapM.loop]
  | cons b t ih => simp [List.mapM.loop, h, ih]

theorem mapM_loop_decodeBonus (l acc : List KiroBonus) :
    List.mapM.loop decodeBonus (l.map encodeBonus) acc = some (acc.reverse ++ l) :=
  mapM_loop_encode decodeBonus encodeBonus decodeBonus_encode l acc

theorem decodeBreakdown_encode (b : KiroUsageBreakdown) :
    decodeBreakdown (encodeBreakdown b) = some b := by
  obtain ⟨cu, ul, ndr, orate, fti, bs⟩ := b
  cases cu <;> cases ul <;> cases ndr <;> cases orate <;> cases fti <;> cases bs <;>
    simp [decodeBreakdown, encodeBreakdown, fieldOpt, fieldReq, getOpt, jlookup, decNum,
      decodeFreeTrialInfo_encode, mapM_loop_decodeBonus]

theorem decodeSubscriptionInfo_encode (s : KiroSubscriptionInfo) :
    decodeSubscriptionInfo (encodeSubscriptionInfo s) = some s := by
  obtain ⟨ty, title, oc, uc⟩ := s
  cases oc <;> cases uc <;>
    simp [decodeSubscriptionInfo, encodeSubscriptionInfo, fieldOpt, fieldReq, getOpt, getReq,
      jlookup, decStr]

theorem decodeUserInfo_encode (u : KiroUserInfo) :
    decodeUserInfo (encodeUserInfo u) = some u := by
  obtain ⟨em, uid⟩ := u
  cases em <;> cases uid <;>
    simp [decodeUserInfo, encodeUserInfo, fieldOpt, getOpt, jlookup, decStr]

theorem decodeOverageConfiguration_encode (o : KiroOverageConfiguration) :
    decodeOverageConfiguration (encodeOverageConfiguration o) = some o := rfl

theorem mapM_loop_decodeBreakdown (l acc : List KiroUsageBreakdown) :
    List.mapM.loop decodeBreakdown (l.map encodeBreakdown) acc = some (acc.reverse ++ l) :=
  mapM_loop_encode decodeBreakdown encodeBreakdown decodeBreakdown_encode l acc

theorem decodeUsageData_encode (u : KiroUsageData) :
    decodeUsageData (encodeUsageData u) = some u := by
  obtain ⟨ubl, ub, si, ui, oc, dur, ndr⟩ := u
  cases ubl <;> cases ub <;> cases si <;> cases ui <;> cases oc <;> cases dur <;> cases ndr <;>
    simp [decodeUsageData, encodeUsageData, fieldOpt, getOpt, jlookup, decNum,
      decodeBreakdown_encode, decodeSubscriptionInfo_encode, decodeUserInfo_encode,
      decodeOverageConfiguration_encode, mapM_loop_decodeBreakdown]

theorem decodeAccount_encode (a : KiroAccountItem) :
    decodeAccount (encodeAccount a) = some a := by
  have hid : getReq decStr (encodeAccountFields a) "id" = some a.id :=
    getReq_eq decStr _ _ (.str a.id) a.id (by simp [encodeAccountFields]) rfl
  have hemail : getReq decStr (encodeAccountFields a) "email" = some a.email :=
    getReq_eq decStr _ _ (.str a.email) a.email (by simp [encodeAccountFields]) rfl
  have hlabel : getOpt decStr (encodeAccountFields a) "label" = some a.label :=
    getOpt_eq decStr Json.str (fun x => rfl) _ _ a.label (by simp [encodeAccountFields])
  have hprovider : getReq decStr (encodeAccountFields a) "provider" = some a.provider :=
    getReq_eq decStr _ _ (.str a.provider) a.provider (by simp [encodeAccountFields]) rfl
  have hauthMethod : getReq decStr (encodeAccountFields a) "authMethod" = some a.authMethod :=
    getReq_eq decStr _ _ (.str a.authMethod) a.authMethod (by simp [encodeAccountFields]) rfl
  have hstatus : getReq decStr (encodeAccountFields a) "status" = some a.status :=
    getReq_eq decStr _ _ (.str a.status) a.status (by simp [encodeAccountFields]) rfl
  have haccessToken : getOpt decStr (encodeAccountFields a) "accessToken" = some a.accessToken :=
    getOpt_eq decStr Json.str (fun x => rfl) _ _ a.accessToken (by simp [encodeAccountFields])
  have hrefreshToken :
      getOpt decStr (encodeAccountFields a) "refreshToken" = some a.refreshToken :=
    getOpt_eq decStr Json.str (fun x => rfl) _ _ a.refreshToken (by simp [encodeAccountFields])
  have hprofileArn : getOpt decStr (encodeAccountFields a) "profileArn" = some a.profileArn :=
    getOpt_eq decStr Json.str (fun x => rfl) _ _ a.profileArn (by simp [encodeAccountFields])
  have hexpiresAt : getOpt decStr (encodeAccountFields a) "expiresAt" = some a.expiresAt :=
    getOpt_eq decStr Json.str (fun x => rfl) _ _ a.expiresAt (by simp [encodeAccountFields])
  have hclientId : getOpt decStr (encodeAccountFields a) "clientId" = some a.clientId :=
    getOpt_eq decStr Json.str (fun x => rfl) _ _ a.clientId (by simp [encodeAccountFields])
  have hclientSecret :
      getOpt decStr (encodeAccountFields a) "clientSecret" = some a.clientSecret :=
    getOpt_eq decStr Json.str (fun x => rfl) _ _ a.clientSecret (by simp [encodeAccountFields])
  have hclientIdHash :
      getOpt decStr (encodeAccountFields a) "clientIdHash" = some a.clientIdHash :=
    getOpt_eq decStr Json.str (fun x => rfl) _ _ a.clientIdHash (by simp [encodeAccountFields])
  have hregion : getOpt decStr (encodeAccountFields a) "region" = some a.region :=
    getOpt_eq decStr Json.str (fun x => rfl) _ _ a.region (by simp [encodeAccountFields])
  have hstartUrl : getOpt decStr (encodeAccountFields a) "startUrl" = some a.startUrl :=
    getOpt_eq decStr Json.str (fun x => rfl) _ _ a.startUrl (by simp [encodeAccountFields])
  have husageData :
      getOpt decodeUsageData (encodeAccountFields a) "usageData" = some a.usageData :=
    getOpt_eq decodeUsageData encodeUsageData decodeUsageData_encode _ _ a.usageData
      (by simp [encodeAccountFields])
  have hcreatedAt : getOpt decStr (encodeAccountFields a) "createdAt" = some a.createdAt :=
    getOpt_eq decStr Json.str (fun x => rfl) _ _ a.createdAt (by simp [encodeAccountFields])
  have hupdatedAt : getOpt decStr (encodeAccountFields a) "updatedAt" = some a.updatedAt :=
    getOpt_eq decStr Json.str (fun x => rfl) _ _ a.updatedAt (by simp [encodeAccountFields])
  have hlastRefreshedAt :
      getOpt decStr (encodeAccountFields a) "lastRefreshedAt" = some a.lastRefreshedAt :=
    getOpt_eq decStr Json.str (fun x => rfl) _ _ a.lastRefreshedAt
      (by simp [encodeAccountFields])
  have hfileName : getOpt decStr (encodeAccountFields a) "fileName" = some a.fileName :=
    getOpt_eq decStr Json.str (fun x => rfl) _ _ a.fileName (by simp [encodeAccountFields])
  have hfilePath : getOpt decStr (encodeAccountFields a) "filePath" = some a.filePath :=
    getOpt_eq decStr Json.str (fun x => rfl) _ _ a.filePath (by simp [encodeAccountFields])
  show decodeAccountObj (encodeAccountFields a) = some a
  rw [decodeAccountObj, hid, hemail, hlabel, hprovider, hauthMethod, hstatus, haccessToken,
    hrefreshToken, hprofileArn, hexpiresAt, hclientId, hclientSecret, hclientIdHash,
    hregion, hstartUrl, husageData, hcreatedAt, hupdatedAt, hlastRefreshedAt, hfileName,
    hfilePath]

theorem decodeAccountList_encode (accounts : List KiroAccountItem) :
    decodeAccountList (encodeAccountList accounts) = some accounts := by
  have h := mapM_loop_encode decodeAccount encodeAccount decodeAccount_encode accounts []
  simp only [decodeAccountList, encodeAccountList, List.mapM, h, List.reverse_nil,
    List.nil_append]

/-- C2: the account cache round-trips through browser storage: saving a
list stores its serialization under the key `kiro_accounts_cache`, loading
it back returns the same list together with `calcAccountStats` of it, all
other keys are untouched, and every `updateCache` writes the new list to
storage under that same key while setting the module cache and both React
state cells to the new list and its stats. -/
theorem cache_roundtrip (A : List KiroAccountItem) (s : Storage) :
    loadCacheFromStorage (saveCacheToStorage A s) = (A, calcAccountStats A) ∧
    saveCacheToStorage A s CACHE_KEY = some (encodeAccountList A) ∧
    (∀ k, k ≠ CACHE_KEY → saveCacheToStorage A s k = s k) ∧
    (∀ st : KiroPageState,
      (updateCache A st).storage = saveCacheToStorage A st.storage ∧
      (updateCache A st).cachedAccounts = A ∧
      (updateCache A st).cachedStats = calcAccountStats A ∧
      (updateCache A st).accounts = A ∧
      (updateCache A st).stats = calcAccountStats A) := by
  refine ⟨?_, by simp [saveCacheToStorage], fun k hk => by simp [saveCacheToStorage, hk],
    fun st => ⟨rfl, rfl, rfl, rfl, rfl⟩⟩
  simp [loadCacheFromStorage, saveCacheToStorage, decodeAccountList_encode]

/-- Witness for C2 at the empty account list and empty storage, reading a
different key. -/
theorem cache_roundtrip_witness :
    loadCacheFromStorage (saveCacheToStorage [] (fun _ => none)) = ([], calcAccountStats []) ∧
    saveCacheToStorage [] (fun _ => none) "other_key" = none :=
  ⟨(cache_roundtrip [] (fun _ => none)).1,
   (cache_roundtrip [] (fun _ => none)).2.2.1 "other_key" (by decide)⟩

/-! ## C3: the timer system -/

theorem regGet_regSet_self (k : String) (v : ℕ) (reg : List (String × ℕ)) :
    regGet k (regSet k v reg) = some v := by
  induction reg with
  | nil => simp [regGet, regSet]
  | cons e t ih =>
    obtain ⟨k', v'⟩ := e
    by_cases h : k' = k <;> simp [regGet, regSet, h, ih]

theorem regGet_regSet_ne (k k2 : String) (v : ℕ) (reg : List (String × ℕ))
    (h : k ≠ k2) : regGet k2 (regSet k v reg) = regGet k2 reg := by
  induction reg with
  | nil => simp [regGet, regSet, h]
  | cons e t ih =>
    obtain ⟨k', v'⟩ := e
    by_cases h2 : k' = k
    · subst h2
      simp [regGet, regSet, h]
    · simp only [regSet, if_neg h2, regGet]
      by_cases h3 : k' = k2 <;> simp [h3, ih]

theorem regGet_regDel_self (k : String) (reg : List (String × ℕ)) :
    regGet k (regDel k reg) = none := by
  induction reg with
  | nil => rfl
  | cons e t ih =>
    obtain ⟨k', v'⟩ := e
    by_cases h : k' = k <;> simp [regDel, regGet, h, ih]

theorem regGet_regDel_ne (k k2 : String) (reg : List (String × ℕ)) (h : k ≠ k2) :
    regGet k2 (regDel k reg) = regGet k2 reg := by
  induction reg with
  | nil => rfl
  | cons e t ih =>
    obtain ⟨k', v'⟩ := e
    by_cases h2 : k' = k
    · subst h2
      have hne : k' ≠ k2 := h
      simp [regDel, regGet, hne, ih]
    · by_cases h3 : k' = k2 <;> simp [regDel, regGet, h2, h3, ih, Ne.symm h]

theorem mem_clearIntervalW {e : TimerEntry} {t : ℕ} {live : List TimerEntry} :
    e ∈ clearIntervalW t live ↔ e ∈ live ∧ e.id ≠ t := by
  simp [clearIntervalW, List.mem_filter]

/-- Entries of an id-nodup live list are determined by their handle. -/
theorem timerEntry_eq_of_id_eq {l : List TimerEntry}
    (hnd : (l.map (fun e : TimerEntry => e.id)).Nodup)
    {a b : TimerEntry} (ha : a ∈ l) (hb : b ∈ l) (hid : a.id = b.id) : a = b :=
  List.inj_on_of_nodup_map hnd ha hb hid

theorem timerWF_init : TimerWF initTimerWorld := by
  refine ⟨?_, ?_, ?_, ?_, ?_, ?_, ?_⟩ <;> simp [initTimerWorld, regGet]

theorem timerWF_install (p : String) (kind : HandlerKind) (w : TimerWorld)
    (hwf : TimerWF w) : TimerWF (installTimer p kind w) := by
  obtain ⟨hreg, hlt, hrlt, hnd, hper, hplt, hpk⟩ := hwf
  have hlive1 : ∀ e, e ∈ (installTimer p kind w).live →
      e = { key := p, id := w.nextId, periodMs := POLL_INTERVAL_MS, kind := kind } ∨
        (e ∈ w.live ∧ e.key ≠ p) := by
    intro e he
    simp only [installTimer, List.mem_append, List.mem_singleton] at he
    rcases he with he | he
    · right
      cases hr : regGet p w.reg with
      | none =>
        rw [hr] at he
        refine ⟨he, fun hkey => ?_⟩
        have := hreg e he
        rw [hkey, hr] at this
        exact Option.noConfusion this
      | some t =>
        rw [hr] at he
        obtain ⟨hmem, hne⟩ := mem_clearIntervalW.mp he
        refine ⟨hmem, fun hkey => ?_⟩
        have := hreg e hmem
        rw [hkey, hr] at this
        exact hne (Option.some.inj this).symm
    · left
      exact he
  refine ⟨?_, ?_, ?_, ?_, ?_, ?_, ?_⟩
  · intro e he
    rcases hlive1 e he with rfl | ⟨hmem, hkey⟩
    · simpa [installTimer] using regGet_regSet_self p w.nextId w.reg
    · simpa [installTimer, regGet_regSet_ne p e.key w.nextId w.reg (Ne.symm hkey)] using
        hreg e hmem
  · intro e he
    rcases hlive1 e he with rfl | ⟨hmem, _⟩
    · simp [installTimer]
    · simp only [installTimer]
      exact Nat.lt_succ_of_lt (hlt e hmem)
  · intro q t hq
    simp only [installTimer] at hq
    by_cases hqp : q = p
    · subst hqp
      rw [regGet_regSet_self] at hq
      obtain rfl : w.nextId = t := Option.some.inj hq
      simp [installTimer]
    · rw [regGet_regSet_ne p q w.nextId w.reg (fun h => hqp h.symm)] at hq
      show t < w.nextId + 1
      exact Nat.lt_succ_of_lt (hrlt q t hq)
  · simp only [installTimer, List.map_append, List.map_cons, List.map_nil]
    apply List.Nodup.append
    · have hsub : ((match regGet p w.reg with
          | some t => clearIntervalW t w.live
          | none => w.live).map (fun e : TimerEntry => e.id)).Sublist
            (w.live.map (fun e : TimerEntry => e.id)) := by
        cases hr : regGet p w.reg with
        | none => simp
        | some t => exact List.Sublist.map _ (List.filter_sublist w.live)
      exact hnd.sublist hsub
    · simp
    · intro x hx hy
      simp only [List.mem_singleton] at hy
      cases hr : regGet p w.reg with
      | none =>
        rw [hr] at hx
        obtain ⟨e, he, rfl⟩ := List.mem_map.mp hx
        exact Nat.ne_of_lt (hlt e he) hy
      | some t =>
        rw [hr] at hx
        obtain ⟨e, he, rfl⟩ := List.mem_map.mp hx
        exact Nat.ne_of_lt (hlt e (mem_clearIntervalW.mp he).1) hy
  · intro e he
    rcases hlive1 e he with rfl | ⟨hmem, _⟩
    · rfl
    · exact hper e hmem
  · intro pt hpt
    simp only [installTimer] at hpt
    exact Nat.lt_succ_of_lt (hplt pt hpt)
  · intro pt hpt e he hid
    simp only [installTimer] at hpt
    rcases hlive1 e he with rfl | ⟨hmem, _⟩
    · exfalso
      have h1 : pt.id < w.nextId := hplt pt hpt
      have h2 : w.nextId = pt.id := hid
      omega
    · exact hpk pt hpt e hmem hid

theorem timerWF_tickFire (e0 : TimerEntry) (w : TimerWorld) (hwf : TimerWF w)
    (hmem : e0 ∈ w.live) :
    TimerWF { w with pending := w.pending ++ [{ key := e0.key, id := e0.id, kind := e0.kind }] } := by
  obtain ⟨hreg, hlt, hrlt, hnd, hper, hplt, hpk⟩ := hwf
  refine ⟨hreg, hlt, hrlt, hnd, hper, ?_, ?_⟩
  · intro pt hpt
    simp only [List.mem_append, List.mem_singleton] at hpt
    rcases hpt with hpt | rfl
    · exact hplt pt hpt
    · exact hlt e0 hmem
  · intro pt hpt e he hid
    simp only [List.mem_append, List.mem_singleton] at hpt
    rcases hpt with hpt | rfl
    · exact hpk pt hpt e he hid
    · have : e = e0 := timerEntry_eq_of_id_eq hnd he hmem hid
      rw [this]

theorem timerWF_removePending (pt : PendingTick) (w : TimerWorld) (hwf : TimerWF w) :
    TimerWF (removePending pt w) := by
  obtain ⟨hreg, hlt, hrlt, hnd, hper, hplt, hpk⟩ := hwf
  have hsub : ∀ q, q ∈ (removePending pt w).pending → q ∈ w.pending := by
    intro q hq
    simp only [removePending] at hq
    exact (List.erase_sublist pt w.pending).subset hq
  exact ⟨hreg, hlt, hrlt, hnd, hper, fun q hq => hplt q (hsub q hq),
    fun q hq e he hid => hpk q (hsub q hq) e he hid⟩

theorem timerWF_tickClear (p : String) (t : ℕ) (w : TimerWorld) (hwf : TimerWF w)
    (hmem : ∃ e ∈ w.live, e.id = t ∧ e.key = p) : TimerWF (tickClear p t w) := by
  obtain ⟨hreg, hlt, hrlt, hnd, hper, hplt, hpk⟩ := hwf
  obtain ⟨e0, he0, hid0, hkey0⟩ := hmem
  refine ⟨?_, ?_, ?_, ?_, ?_, ?_, ?_⟩
  · intro e he
    obtain ⟨he2, hne⟩ := mem_clearIntervalW.mp he
    have hkey : e.key ≠ p := by
      intro hk
      have h1 := hreg e he2
      have h2 := hreg e0 he0
      rw [hkey0] at h2
      rw [hid0] at h2
      rw [hk, h2] at h1
      exact hne (Option.some.inj h1).symm
    simpa [tickClear, regGet_regDel_ne p e.key w.reg (Ne.symm hkey)] using hreg e he2
  · intro e he
    exact hlt e (mem_clearIntervalW.mp he).1
  · intro q t2 hq
    simp only [tickClear] at hq
    by_cases hqk : q = p
    · rw [hqk, regGet_regDel_self] at hq
      exact Option.noConfusion hq
    · rw [regGet_regDel_ne p q w.reg (fun h => hqk h.symm)] at hq
      exact hrlt q t2 hq
  · exact hnd.sublist (List.Sublist.map _ (List.filter_sublist w.live))
  · intro e he
    exact hper e (mem_clearIntervalW.mp he).1
  · exact hplt
  · intro q hq e he hid
    exact hpk q hq e (mem_clearIntervalW.mp he).1 hid

theorem timerWF_filter_live (w : TimerWorld) (hwf : TimerWF w) (q : TimerEntry → Bool) :
    TimerWF { w with live := w.live.filter q } := by
  obtain ⟨hreg, hlt, hrlt, hnd, hper, hplt, hpk⟩ := hwf
  refine ⟨?_, ?_, hrlt, ?_, ?_, hplt, ?_⟩
  · intro e he
    exact hreg e (List.mem_of_mem_filter he)
  · intro e he
    exact hlt e (List.mem_of_mem_filter he)
  · exact hnd.sublist (List.Sublist.map _ (List.filter_sublist w.live))
  · intro e he
    exact hper e (List.mem_of_mem_filter he)
  · intro pt hpt e he hid
    exact hpk pt hpt e (List.mem_of_mem_filter he) hid

theorem timerWF_safeStep {w w2 : TimerWorld} (hwf : TimerWF w) (hs : SafeTimerStep w w2) :
    TimerWF w2 := by
  cases hs with
  | startPolling p w => exact timerWF_install p .generic w hwf
  | startKiroPolling w => exact timerWF_install "kiro" .kiro w hwf
  | tickFire e w hmem => exact timerWF_tickFire e w hwf hmem
  | pollTickComplete pt o w hpend hkind hlive =>
    have h1 : TimerWF (removePending pt w) := timerWF_removePending pt w hwf
    cases h : pollTickClears o with
    | true =>
      simpa [h] using timerWF_tickClear pt.key pt.id (removePending pt w) h1 hlive
    | false => simpa [h] using h1
  | kiroPollTickComplete pt o w hpend hkind hlive =>
    have h1 : TimerWF (removePending pt w) := timerWF_removePending pt w hwf
    cases h : kiroTickClears o with
    | true =>
      simpa [h] using timerWF_tickClear pt.key pt.id (removePending pt w) h1 hlive
    | false => simpa [h] using h1
  | unmount w => exact timerWF_filter_live w hwf _

theorem timerWF_safeReachable {w : TimerWorld} (h : SafeTimerReachable w) : TimerWF w := by
  induction h with
  | init => exact timerWF_init
  | step _ hs ih => exact timerWF_safeStep ih hs

theorem timerBounds_init : TimerBounds initTimerWorld := by
  refine ⟨?_, ?_⟩ <;> simp [initTimerWorld, regGet]

theorem timerBounds_install (p : String) (kind : HandlerKind) (w : TimerWorld)
    (hb : TimerBounds w) : TimerBounds (installTimer p kind w) := by
  obtain ⟨hlt, hrlt⟩ := hb
  refine ⟨?_, ?_⟩
  · intro e he
    simp only [installTimer, List.mem_append, List.mem_singleton] at he
    rcases he with he | rfl
    · have hmem : e ∈ w.live := by
        cases hr : regGet p w.reg with
        | none => rw [hr] at he; exact he
        | some t => rw [hr] at he; exact (mem_clearIntervalW.mp he).1
      show e.id < w.nextId + 1
      exact Nat.lt_succ_of_lt (hlt e hmem)
    · simp [installTimer]
  · intro q t hq
    simp only [installTimer] at hq
    by_cases hqp : q = p
    · subst hqp
      rw [regGet_regSet_self] at hq
      obtain rfl : w.nextId = t := Option.some.inj hq
      simp [installTimer]
    · rw [regGet_regSet_ne p q w.nextId w.reg (fun h => hqp h.symm)] at hq
      show t < w.nextId + 1
      exact Nat.lt_succ_of_lt (hrlt q t hq)

theorem timerBounds_tickClear (p : String) (t : ℕ) (w : TimerWorld)
    (hb : TimerBounds w) : TimerBounds (tickClear p t w) := by
  obtain ⟨hlt, hrlt⟩ := hb
  refine ⟨?_, ?_⟩
  · intro e he
    exact hlt e (mem_clearIntervalW.mp he).1
  · intro q t2 hq
    simp only [tickClear] at hq
    by_cases hqk : q = p
    · rw [hqk, regGet_regDel_self] at hq
      exact Option.noConfusion hq
    · rw [regGet_regDel_ne p q w.reg (fun h => hqk h.symm)] at hq
      exact hrlt q t2 hq

theorem timerBounds_step {w w2 : TimerWorld} (hb : TimerBounds w) (hs : TimerStep w w2) :
    TimerBounds w2 := by
  cases hs with
  | startPolling p w => exact timerBounds_install p .generic w hb
  | startKiroPolling w => exact timerBounds_install "kiro" .kiro w hb
  | tickFire e w hmem => exact ⟨hb.liveLt, hb.regLt⟩
  | pollTickComplete pt o w hpend hkind =>
    have h1 : TimerBounds (removePending pt w) := ⟨hb.liveLt, hb.regLt⟩
    cases h : pollTickClears o with
    | true => simpa [h] using timerBounds_tickClear pt.key pt.id (removePending pt w) h1
    | false => simpa [h] using h1
  | kiroPollTickComplete pt o w hpend hkind =>
    have h1 : TimerBounds (removePending pt w) := ⟨hb.liveLt, hb.regLt⟩
    cases h : kiroTickClears o with
    | true => simpa [h] using timerBounds_tickClear pt.key pt.id (removePending pt w) h1
    | false => simpa [h] using h1
  | unmount w =>
    refine ⟨?_, hb.regLt⟩
    intro e he
    exact hb.liveLt e (List.mem_of_mem_filter he)

theorem timerBounds_reachable {w : TimerWorld} (h : TimerReachable w) : TimerBounds w := by
  induction h with
  | init => exact timerBounds_init
  | step _ hs ih => exact timerBounds_step ih hs

/-- Every stale-free event is an event of the program model. -/
theorem safeTimerStep_timerStep {w w2 : TimerWorld} (hs : SafeTimerStep w w2) :
    TimerStep w w2 := by
  cases hs with
  | startPolling p w => exact .startPolling p w
  | startKiroPolling w => exact .startKiroPolling w
  | tickFire e w hmem => exact .tickFire e w hmem
  | pollTickComplete pt o w hpend hkind hlive => exact .pollTickComplete pt o w hpend hkind
  | kiroPollTickComplete pt o w hpend hkind hlive =>
    exact .kiroPollTickComplete pt o w hpend hkind
  | unmount w => exact .unmount w

theorem nodup_all_eq_length_le_one (l : List ℕ) (t : ℕ) (hnd : l.Nodup)
    (hc : ∀ x ∈ l, x = t) : l.length ≤ 1 := by
  cases l with
  | nil => simp
  | cons a l2 =>
    cases l2 with
    | nil => simp
    | cons b l3 =>
      have ha := hc a (by simp)
      have hb := hc b (by simp)
      rw [List.nodup_cons] at hnd
      exact absurd (by simp [ha, hb]) hnd.1

theorem countLive_le_one (w : TimerWorld) (hwf : TimerWF w) (p : String) :
    (w.live.filter (fun e => e.key = p)).length ≤ 1 := by
  obtain ⟨hreg, _, _, hnd, _, _, _⟩ := hwf
  cases hr : regGet p w.reg with
  | none =>
    have : w.live.filter (fun e => e.key = p) = [] := by
      rw [List.filter_eq_nil_iff]
      intro e he hkey
      have := hreg e he
      simp only [decide_eq_true_eq] at hkey
      rw [hkey, hr] at this
      exact Option.noConfusion this
    simp [this]
  | some t =>
    have hlen : (w.live.filter (fun e => e.key = p)).length =
        ((w.live.filter (fun e => e.key = p)).map (fun e : TimerEntry => e.id)).length := by
      simp
    rw [hlen]
    apply nodup_all_eq_length_le_one _ t
    · exact hnd.sublist (List.Sublist.map _ (List.filter_sublist w.live))
    · intro x hx
      obtain ⟨e, he, rfl⟩ := List.mem_map.mp hx
      obtain ⟨he2, hkey⟩ := List.mem_filter.mp he
      simp only [decide_eq_true_eq] at hkey
      have := hreg e he2
      rw [hkey, hr] at this
      exact (Option.some.inj this).symm

/-- The state reached by: start polling for `google`; its timer fires; the
user restarts polling (clearing that timer while its request is in
flight); the stale request then resolves `'ok'`, unregistering the new
timer; a third `startPolling` installs yet another timer without clearing
the surviving one. -/
def wRace : TimerWorld :=
  { nextId := 3,
    live := [{ key := "google", id := 1, periodMs := 3000, kind := .generic },
             { key := "google", id := 2, periodMs := 3000, kind := .generic }],
    reg := [("google", 2)],
    pending := [] }

/-- C3 counterexample to the claim as stated: a stale poll completion
(resolving after `startPolling` already cleared its timer) deletes
`timers.current['google']`, unregistering the newer live timer; the next
`startPolling` then finds nothing registered, clears nothing, and
installs a second timer — a reachable state has two live polling timers
for the provider `google`. -/
theorem polling_timer_claim_counterexample :
    TimerReachable wRace ∧
      ¬ (wRace.live.filter (fun e => e.key = "google")).length ≤ 1 := by
  constructor
  · have h1 : TimerReachable (installTimer "google" .generic initTimerWorld) :=
      .step .init (.startPolling "google" initTimerWorld)
    have h2 := TimerReachable.step h1
      (TimerStep.tickFire { key := "google", id := 0, periodMs := 3000, kind := .generic } _
        (by decide))
    have h3 := TimerReachable.step h2 (TimerStep.startPolling "google" _)
    have h4 := TimerReachable.step h3
      (TimerStep.pollTickComplete { key := "google", id := 0, kind := .generic }
        (.res { status := "ok", error := none }) _ (by decide) rfl)
    have h5 := TimerReachable.step h4 (TimerStep.startPolling "google" _)
    exact h5
  · decide

/-- C3 (amended): `startPolling` / `startKiroPolling` clear any timer
registered under the same key before installing the new 3000 ms timer (no
surviving timer carries the previously registered handle); the generic
tick clears its timer exactly on status `'ok'`, status `'error'`, or a
thrown request, and the Kiro tick exactly on `'ok'`, a terminal `'error'`
(one not carrying an `'auth_url|'` payload), or a thrown request; and in
every execution in which no poll completion arrives after its own timer
was cleared (the stale-free sub-system of the program model), at most one
polling timer per provider is live at any time, each with the 3000 ms
period. In the unrestricted program model a stale completion can
unregister a newer timer and two live timers for one provider become
reachable. -/
theorem polling_timer_per_provider :
    (∀ w, SafeTimerReachable w →
      (∀ p, (w.live.filter (fun e => e.key = p)).length ≤ 1) ∧
      (∀ e ∈ w.live, e.periodMs = 3000)) ∧
    (∀ w w2, SafeTimerStep w w2 → TimerStep w w2) ∧
    (∀ w p t kind, TimerReachable w → regGet p w.reg = some t →
      ∀ e ∈ (installTimer p kind w).live, e.id ≠ t) ∧
    (∀ r : OAuthStatusResp,
      pollTickClears (.res r) = (r.status = "ok" || r.status = "error")) ∧
    pollTickClears .threw = true ∧
    (∀ r : KiroStatusResp,
      kiroTickClears (.res r) =
        (r.status = "ok" ||
          (r.status = "error" && !strStartsWith (jsOrStr r.error "") "auth_url|"))) ∧
    kiroTickClears .threw = true := by
  refine ⟨?_, fun w w2 => safeTimerStep_timerStep, ?_, fun r => rfl, rfl, fun r => rfl, rfl⟩
  · intro w hw
    have hwf := timerWF_safeReachable hw
    exact ⟨countLive_le_one w hwf, hwf.livePeriod⟩
  · intro w p t kind hw hr e he
    have hb := timerBounds_reachable hw
    simp only [installTimer, hr, List.mem_append, List.mem_singleton] at he
    rcases he with he | he
    · exact (mem_clearIntervalW.mp he).2
    · subst he
      exact Nat.ne_of_gt (hb.regLt p t hr)

/-- Witness for C3 in the stale-free state reached by one
`startPolling "google"` from the fresh component. -/
theorem polling_timer_per_provider_witness :
    ((installTimer "google" .generic initTimerWorld).live.filter
      (fun e => e.key = "google")).length ≤ 1 :=
  ((polling_timer_per_provider.1 (installTimer "google" .generic initTimerWorld)
    (SafeTimerReachable.step SafeTimerReachable.init
      (SafeTimerStep.startPolling "google" initTimerWorld))).1) "google"
